import Mathlib

/-!
Verification development for the aic compiler (lexer, parser, LLVM-based
code generator). The Rust sources are shallowly embedded: the AST mirrors
src/ast.rs, the token type mirrors src/token.rs, the parser mirrors the
chumsky grammar of src/parser.rs (PEG-style ordered choice with
backtracking, general recursion made total with a fuel parameter), and the
code generator mirrors src/codegen.rs, with the inkwell/LLVM builder
modelled as explicit state: a store of basic blocks, a module function
table, a current insertion point, and fresh counters for block ids and
stack slots. Rust panics (unwrap on None/Err) are modelled by a dedicated
crash result, distinct from recoverable errors.

Definitions come first (the embedding, the invariant relations used by the
proofs, and the concrete programs and states that the counterexamples and
witnesses evaluate), followed by the theorems.
-/

/-! ## AST (src/ast.rs) -/

/-- Primitive types, from ast::Type. -/
inductive Ty where
  | i32
  | i64
  | f32
  | f64
  | void
  | string
deriving DecidableEq, Repr

/-- Binary operators, from ast::BinOp. -/
inductive BinOp where
  | add
  | sub
  | mul
  | div
  | equal
  | notEqual
  | lessThan
  | lessThanOrEqual
  | greaterThan
  | greaterThanOrEqual
  | and
  | or
deriving DecidableEq, Repr

/-- Unary operators, from ast::UnaryOp. -/
inductive UnaryOp where
  | neg
  | not
deriving DecidableEq, Repr

/-- Function parameter, from ast::FunctionParameter. -/
structure FunctionParameter where
  name : String
  ty : Ty
deriving DecidableEq, Repr

/-- Expressions, from ast::Expr. Integer literals carry the i64 payload. -/
inductive Expr where
  | intLit (v : Int)
  | boolLit (b : Bool)
  | binOp (lhs : Expr) (op : BinOp) (rhs : Expr)
  | unaryOp (op : UnaryOp) (e : Expr)
  | fnCall (name : String) (args : List Expr)
  | varRef (name : String)

/-- Statements, from ast::Stmt. `tailExpr` is ast::Stmt::Expr (the bare
trailing expression of a block); `exprStmt` is ast::Stmt::ExprStmt. -/
inductive Stmt where
  | fnDecl (name : String) (params : List FunctionParameter) (retTy : Ty) (body : List Stmt)
  | letDecl (name : String) (ty : Option Ty) (value : Option Expr)
  | varDecl (name : String) (ty : Option Ty) (value : Option Expr)
  | assign (name : String) (value : Expr)
  | ifStmt (condition : Expr) (thenBranch : List Stmt) (elseBranch : Option (List Stmt))
  | ret (e : Option Expr)
  | exprStmt (e : Expr)
  | tailExpr (e : Expr)

/-- Top-level program, from ast::Program. -/
structure Program where
  statements : List Stmt

/-! ## Tokens (src/token.rs)

The logos-derived lexer has dedicated tokens only for `fn`
(Token::FunctionDeclaration) and `let` (Token::LetDeclaration); all other
words match the identifier regex. Whitespace is skipped and unrecognized
characters yield Token::Error. -/

/-- Tokens, one constructor per variant of token::Token (the skipped
Whitespace variant never reaches the parser and is not produced here). -/
inductive Token where
  | error
  | functionDeclaration
  | letDeclaration
  | identifier (s : String)
  | integer (s : String)
  | add
  | sub
  | mul
  | div
  | comma
  | rightArrow
  | colon
  | semicolon
  | lparen
  | rparen
  | lbrace
  | rbrace
deriving DecidableEq, Repr

/-- Keyword resolution: logos gives the exact spellings `fn` and `let`
priority over the identifier regex; any other identifier-shaped word is an
identifier token. -/
def keywordOrIdent (s : String) : Token :=
  if s = ("fn") then .functionDeclaration
  else if s = ("let") then .letDeclaration
  else .identifier s

/-- First character of the identifier regex [a-zA-Z_][a-zA-Z0-9_]*. -/
def isIdentStart (c : Char) : Bool :=
  c.isAlpha || c == '_'

/-- Continuation character of the identifier regex. -/
def isIdentCont (c : Char) : Bool :=
  c.isAlphanum || c == '_'

/-- Longest-match tokenizer over the character list; fuel is bounded by the
input length since every step consumes at least one character. Mirrors the
logos token/regex set of src/token.rs: whitespace [ \t\f\n] is skipped,
`->` beats `-` by longest match, and an unrecognized character becomes an
error token. -/
def lexGo : Nat → List Char → List Token
  | 0, _ => []
  | _, [] => []
  | fuel+1, c :: cs =>
    if c == ' ' || c == '\t' || c == '\n' || c == '\x0c' then
      lexGo fuel cs
    else if isIdentStart c then
      keywordOrIdent (String.mk ((c :: cs).takeWhile isIdentCont))
        :: lexGo fuel ((c :: cs).dropWhile isIdentCont)
    else if c.isDigit then
      Token.integer (String.mk ((c :: cs).takeWhile Char.isDigit))
        :: lexGo fuel ((c :: cs).dropWhile Char.isDigit)
    else if c == '-' then
      match cs with
      | '>' :: rest => Token.rightArrow :: lexGo fuel rest
      | _ => Token.sub :: lexGo fuel cs
    else if c == '+' then Token.add :: lexGo fuel cs
    else if c == '*' then Token.mul :: lexGo fuel cs
    else if c == '/' then Token.div :: lexGo fuel cs
    else if c == ',' then Token.comma :: lexGo fuel cs
    else if c == ':' then Token.colon :: lexGo fuel cs
    else if c == ';' then Token.semicolon :: lexGo fuel cs
    else if c == '(' then Token.lparen :: lexGo fuel cs
    else if c == ')' then Token.rparen :: lexGo fuel cs
    else if c == '\x7b' then Token.lbrace :: lexGo fuel cs
    else if c == '\x7d' then Token.rbrace :: lexGo fuel cs
    else Token.error :: lexGo fuel cs

/-- Tokenize a source string. -/
def lexText (s : String) : List Token :=
  lexGo s.length s.data

/-! ## Parser (src/parser.rs)

The chumsky combinators are modelled as a PEG parser over the token list:
ordered choice backtracks on failure, and the `value.parse().unwrap()`
inside the integer-literal `select!` is modelled by a crash result that
propagates without backtracking, as a Rust panic would. -/

/-- Parser result: success with remaining input, recoverable failure
(chumsky backtracks), or a panic (unwrap failure) that aborts parsing. -/
inductive PRes (α : Type) where
  | pok (a : α) (rest : List Token)
  | pfail
  | pcrash
deriving Repr

/-- Sequencing of parsers: failures and crashes propagate. -/
def PRes.pbind {α β : Type} (r : PRes α) (f : α → List Token → PRes β) : PRes β :=
  match r with
  | .pok a rest => f a rest
  | .pfail => .pfail
  | .pcrash => .pcrash

/-- Ordered choice: try the alternative only on recoverable failure; a
crash (panic) is never backtracked. -/
def PRes.orTry {α : Type} (r : PRes α) (alt : Unit → PRes α) : PRes α :=
  match r with
  | .pfail => alt ()
  | x => x

/-- Consume one expected token. -/
def expectTok (t : Token) (ts : List Token) : PRes Unit :=
  match ts with
  | u :: rest => if u = t then .pok () rest else .pfail
  | [] => .pfail

/-- Numeric value of a digit string (the lexer only produces [0-9]+). -/
def natOfDigits (s : String) : Nat :=
  s.data.foldl (fun n c => n * 10 + (c.toNat - 48)) 0

/-- Largest value of Rust's i64, the target of `value.parse::<i64>()`. -/
def i64Max : Nat := 9223372036854775807

/-- The `select!` arm for integer literals:
`Token::Integer(value) => ast::Expr::IntLit(value.parse().unwrap())`.
A digit string beyond the i64 range makes `parse` return Err and the
`unwrap` panic, modelled as a crash. -/
def pLiteral (ts : List Token) : PRes Expr :=
  match ts with
  | .integer s :: rest =>
    if natOfDigits s ≤ i64Max then .pok (.intLit (natOfDigits s)) rest else .pcrash
  | _ => .pfail

/-- The `select!` arm for identifiers. -/
def pIdent (ts : List Token) : PRes String :=
  match ts with
  | .identifier s :: rest => .pok s rest
  | _ => .pfail

/-- The `select!` arm for type names (identifiers with guards). -/
def pType (ts : List Token) : PRes Ty :=
  match ts with
  | .identifier s :: rest =>
    if s = ("i32") then .pok .i32 rest
    else if s = ("i64") then .pok .i64 rest
    else if s = ("f32") then .pok .f32 rest
    else if s = ("f64") then .pok .f64 rest
    else if s = ("void") then .pok .void rest
    else if s = ("string") then .pok .string rest
    else .pfail
  | _ => .pfail

mutual

/-- The recursive expression parser: `expr = addition`. -/
def pExpr : Nat → List Token → PRes Expr
  | 0, _ => .pfail
  | fuel+1, ts => pAddition fuel ts

/-- `addition = multiplication (("+"|"-") multiplication)*`, folded left. -/
def pAddition : Nat → List Token → PRes Expr
  | 0, _ => .pfail
  | fuel+1, ts =>
    (pMultiplication fuel ts).pbind fun lhs rest => pAddLoop fuel lhs rest

/-- Greedy left fold of the additive operators (`foldl` + `repeated`):
when the operand after an operator fails to parse, the operator token is
backtracked and the fold ends. -/
def pAddLoop : Nat → Expr → List Token → PRes Expr
  | 0, _, _ => .pfail
  | fuel+1, lhs, ts =>
    match ts with
    | Token.add :: rest =>
      match pMultiplication fuel rest with
      | .pok rhs rest2 => pAddLoop fuel (.binOp lhs .add rhs) rest2
      | .pfail => .pok lhs ts
      | .pcrash => .pcrash
    | Token.sub :: rest =>
      match pMultiplication fuel rest with
      | .pok rhs rest2 => pAddLoop fuel (.binOp lhs .sub rhs) rest2
      | .pfail => .pok lhs ts
      | .pcrash => .pcrash
    | _ => .pok lhs ts

/-- `multiplication = unary (("*"|"/") unary)*`, folded left. -/
def pMultiplication : Nat → List Token → PRes Expr
  | 0, _ => .pfail
  | fuel+1, ts =>
    (pUnary fuel ts).pbind fun lhs rest => pMulLoop fuel lhs rest

/-- Greedy left fold of the multiplicative operators. -/
def pMulLoop : Nat → Expr → List Token → PRes Expr
  | 0, _, _ => .pfail
  | fuel+1, lhs, ts =>
    match ts with
    | Token.mul :: rest =>
      match pUnary fuel rest with
      | .pok rhs rest2 => pMulLoop fuel (.binOp lhs .mul rhs) rest2
      | .pfail => .pok lhs ts
      | .pcrash => .pcrash
    | Token.div :: rest =>
      match pUnary fuel rest with
      | .pok rhs rest2 => pMulLoop fuel (.binOp lhs .div rhs) rest2
      | .pfail => .pok lhs ts
      | .pcrash => .pcrash
    | _ => .pok lhs ts

/-- `unary = "-" primary | primary`. -/
def pUnary : Nat → List Token → PRes Expr
  | 0, _ => .pfail
  | fuel+1, ts =>
    PRes.orTry
      (match ts with
       | Token.sub :: rest =>
         (pPrimary fuel rest).pbind fun e rest2 => .pok (.unaryOp .neg e) rest2
       | _ => .pfail)
      (fun _ => pPrimary fuel ts)

/-- `primary = literal | "(" expr ")"`. -/
def pPrimary : Nat → List Token → PRes Expr
  | 0, _ => .pfail
  | fuel+1, ts =>
    PRes.orTry (pLiteral ts) (fun _ =>
      match ts with
      | Token.lparen :: rest =>
        (pExpr fuel rest).pbind fun e rest2 =>
          (expectTok Token.rparen rest2).pbind fun _ rest3 => .pok e rest3
      | _ => .pfail)

end

/-- `function_parameter = identifier ":" type`. -/
def pParam (ts : List Token) : PRes FunctionParameter :=
  (pIdent ts).pbind fun name r1 =>
    (expectTok Token.colon r1).pbind fun _ r2 =>
      (pType r2).pbind fun t r3 => .pok ⟨name, t⟩ r3

/-- Continuation of `separated_by(Comma)`: a comma not followed by a
parameter is backtracked and ends the sequence. -/
def pParamsTail : Nat → List FunctionParameter → List Token → PRes (List FunctionParameter)
  | 0, _, _ => .pfail
  | fuel+1, acc, ts =>
    match ts with
    | Token.comma :: rest =>
      match pParam rest with
      | .pok p r2 => pParamsTail fuel (acc ++ [p]) r2
      | .pfail => .pok acc ts
      | .pcrash => .pcrash
    | _ => .pok acc ts

/-- `function_parameters = "(" (param ("," param)*)? ")"`. -/
def pParams (fuel : Nat) (ts : List Token) : PRes (List FunctionParameter) :=
  (expectTok Token.lparen ts).pbind fun _ r1 =>
    match pParam r1 with
    | .pok p r2 =>
      (pParamsTail fuel [p] r2).pbind fun ps r3 =>
        (expectTok Token.rparen r3).pbind fun _ r4 => .pok ps r4
    | .pfail =>
      (expectTok Token.rparen r1).pbind fun _ r2 => .pok [] r2
    | .pcrash => .pcrash

mutual

/-- `statement = function_declaration | expr_statement`. -/
def pStmt : Nat → List Token → PRes Stmt
  | 0, _ => .pfail
  | fuel+1, ts => PRes.orTry (pFnDecl fuel ts) (fun _ => pExprStmt fuel ts)

/-- `function_declaration = "fn" identifier function_parameters "->" type
"{" statements "}"`. -/
def pFnDecl : Nat → List Token → PRes Stmt
  | 0, _ => .pfail
  | fuel+1, ts =>
    (expectTok Token.functionDeclaration ts).pbind fun _ r1 =>
      (pIdent r1).pbind fun name r2 =>
        (pParams fuel r2).pbind fun params r3 =>
          (expectTok Token.rightArrow r3).pbind fun _ r4 =>
            (pType r4).pbind fun rty r5 =>
              (expectTok Token.lbrace r5).pbind fun _ r6 =>
                (pStatements fuel r6).pbind fun body r7 =>
                  (expectTok Token.rbrace r7).pbind fun _ r8 =>
                    .pok (.fnDecl name params rty body) r8

/-- `expr_statement = expr ";"`. -/
def pExprStmt : Nat → List Token → PRes Stmt
  | 0, _ => .pfail
  | fuel+1, ts =>
    (pExpr fuel ts).pbind fun e r1 =>
      (expectTok Token.semicolon r1).pbind fun _ r2 => .pok (.exprStmt e) r2

/-- `statement.repeated()`: greedy, a failing statement ends the loop with
its input backtracked. -/
def pStmtLoop : Nat → List Stmt → List Token → PRes (List Stmt)
  | 0, _, _ => .pfail
  | fuel+1, acc, ts =>
    match pStmt fuel ts with
    | .pok s rest => pStmtLoop fuel (acc ++ [s]) rest
    | .pfail => .pok acc ts
    | .pcrash => .pcrash

/-- `statements = statement* (expr)?`; a trailing bare expression becomes
the block's tail expression (ast::Stmt::Expr). -/
def pStatements : Nat → List Token → PRes (List Stmt)
  | 0, _ => .pfail
  | fuel+1, ts =>
    (pStmtLoop fuel [] ts).pbind fun ss rest =>
      match pExpr fuel rest with
      | .pok e r2 => .pok (ss ++ [.tailExpr e]) r2
      | .pfail => .pok ss rest
      | .pcrash => .pcrash

end

/-- `program = statements then_ignore(end())`. -/
def pProgram (fuel : Nat) (ts : List Token) : PRes Program :=
  (pStatements fuel ts).pbind fun ss rest =>
    match rest with
    | [] => .pok ⟨ss⟩ []
    | _ => .pfail

/-- Outcome of parser::parse + into_result(): a program, a non-empty batch
of collected parse errors, or a panic. -/
inductive ParseOut where
  | okP (p : Program)
  | errsP
  | crashP

/-- parser::parse — lex the source and run the program parser. The fuel is
ample for the input size; chumsky's recursion is not fuel-limited, but
every recursive descent here consumes input, so a linear budget suffices. -/
def parseSrc (s : String) : ParseOut :=
  let ts := lexText s
  match pProgram (2 * ts.length + 8) ts with
  | .pok p _ => .okP p
  | .pfail => .errsP
  | .pcrash => .crashP

/-! ## Code generator state (src/codegen.rs, inkwell modelled explicitly)

Values are tracked by their LLVM type only; instructions record enough
structure (opcode, operand types, slot ids, branch targets) to state the
claims. Basic blocks live in a store keyed by a fresh id; a function holds
the ordered list of member block ids, so `remove_from_function` unlinks the
id from that list (and clears the block's parent) while the block object
survives, exactly as in LLVM. -/

/-- The inkwell BasicTypeEnum cases reachable from ast::Type plus the i1
type of booleans and comparison results. -/
inductive LTy where
  | i1
  | i32
  | i64
  | f32
  | f64
deriving DecidableEq, Repr

/-- inkwell `is_int_value`: integer types of any width. -/
def LTy.isInt : LTy → Bool
  | .i1 | .i32 | .i64 => true
  | _ => false

/-- A generated value, identified by its LLVM type. -/
structure Val where
  ty : LTy
deriving DecidableEq, Repr

/-- Integer comparison predicates (inkwell IntPredicate). -/
inductive IPred where
  | eq
  | ne
  | slt
  | sle
  | sgt
  | sge
deriving DecidableEq, Repr

/-- Emitted instructions. `ret`, `br` and `condBr` are the terminators of
LLVM; everything else is a plain instruction. -/
inductive Instr where
  | alloca (slot : Nat) (ty : LTy) (name : String)
  | store (slot : Nat) (v : Val)
  | load (slot : Nat) (ty : LTy) (name : String)
  | cmp (p : IPred) (l r : Val)
  | andOp (l r : Val)
  | orOp (l r : Val)
  | addOp (l r : Val)
  | subOp (l r : Val)
  | mulOp (l r : Val)
  | divOp (l r : Val)
  | notOp (v : Val)
  | call (fname : String) (args : List Val)
  | ret (v : Option Val)
  | br (dest : Nat)
  | condBr (c : Val) (thenDest elseDest : Nat)

/-- Whether an instruction is a block terminator. -/
def Instr.isTerminator : Instr → Bool
  | .ret _ | .br _ | .condBr .. => true
  | _ => false

/-- Whether an instruction is a return. -/
def Instr.isRet : Instr → Bool
  | .ret _ => true
  | _ => false

/-- A basic block: label, owning function (none once removed), ordered
instruction list. -/
structure Block where
  label : String
  parentFn : Option Nat
  instrs : List Instr

/-- A module function: name, parameter types, return type (none = void),
and the ordered ids of its member blocks. -/
structure Func where
  name : String
  paramTys : List LTy
  retTy : Option LTy
  blockIds : List Nat
deriving DecidableEq, Repr

/-- codegen::VariableInfo — stack slot, stored type, mutability. -/
structure VarInfo where
  slot : Nat
  ty : LTy
  isMutable : Bool
deriving DecidableEq, Repr

/-- One lexical scope: the HashMap is modelled as an association list
(only get/insert are used, so ordering is irrelevant). -/
abbrev Scope := List (String × VarInfo)

/-- codegen::Env — the scope stack. The head of the list is the innermost
scope, mirroring `scopes.last()` as the top and `iter().rev()` order. -/
abbrev Env := List Scope

/-- Errors, one constructor per `bail!`/error site of codegen.rs. -/
inductive CErr where
  | duplicateBinding (name : String)
  | unboundName (name : String)
  | immutableAssign (name : String)
  | letNeedsInit
  | letTypeMismatch
  | varNeedsType
  | assignTypeMismatch (name : String)
  | condNotInt
  | eqTypeMismatch
  | eqNotInt
  | cmpTypeMismatch
  | cmpNotInt
  | logicalNotInt
  | arithTypeMismatch
  | arithNotInt
  | negNotInt
  | notNotInt
  | fnNotFound (name : String)
  | typeNotBasic (t : Ty)
  | defaultValUnsupported (t : Ty)
  | mergeRemoveFailed
deriving DecidableEq, Repr

/-- Lowering result: success, a recoverable `anyhow` error propagated by
`?`, a Rust panic (`unwrap` failure), or fuel exhaustion (a modelling
artifact: the Rust recursion is unbounded, every theorem quantifies over
the fuel). -/
inductive Res (α : Type) where
  | ok (a : α)
  | err (e : CErr)
  | crash
  | fuelOut

/-- Sequencing of fallible lowering steps (`?` propagation). -/
def Res.bind {α β : Type} (r : Res α) (f : α → Res β) : Res β :=
  match r with
  | .ok a => f a
  | .err e => .err e
  | .crash => .crash
  | .fuelOut => .fuelOut

/-- Scope lookup (HashMap::get). -/
def scopeLookup (s : Scope) (name : String) : Option VarInfo :=
  match s.find? (fun p => p.1 == name) with
  | some p => some p.2
  | none => none

/-- Scope insert returning the previous binding (HashMap::insert). -/
def scopeInsert (s : Scope) (name : String) (vi : VarInfo) : Scope × Option VarInfo :=
  match scopeLookup s name with
  | some old => (s.map (fun p => if p.1 == name then (name, vi) else p), some old)
  | none => ((name, vi) :: s, none)

/-- Env::declare_var — insert into the top scope, failing if the name was
already bound there; `scopes.last_mut().unwrap()` panics on an empty scope
stack. -/
def declareVar (env : Env) (name : String) (vi : VarInfo) : Res Env :=
  match env with
  | [] => .crash
  | top :: rest =>
    match scopeInsert top name vi with
    | (top1, old) =>
      if old.isSome then .err (.duplicateBinding name) else .ok (top1 :: rest)

/-- Env::resolve_var — search the scopes innermost-to-outermost. -/
def resolveVar (env : Env) (name : String) : Res VarInfo :=
  match env with
  | [] => .err (.unboundName name)
  | s :: rest =>
    match scopeLookup s name with
    | some vi => .ok vi
    | none => resolveVar rest name

/-- The full builder/module state. -/
structure St where
  funcs : List Func
  blocks : List (Nat × Block)
  cur : Nat
  nextBlock : Nat
  nextSlot : Nat
  env : Env

/-- Find a block by id in the store. -/
def lookupBlock (st : St) (bid : Nat) : Option Block :=
  match st.blocks.find? (fun p => p.1 == bid) with
  | some p => some p.2
  | none => none

/-- Append an instruction at the end of a block (the builder emits at its
current insertion point). -/
def appendInstr (st : St) (bid : Nat) (i : Instr) : St :=
  { st with blocks := st.blocks.map (fun p =>
      if p.1 == bid then (p.1, { p.2 with instrs := p.2.instrs ++ [i] }) else p) }

/-- context::append_basic_block — create a fresh block owned by the given
function and link it at the end of the function's block list. -/
def appendBlockToFunc (st : St) (fidx : Nat) (label : String) : Nat × St :=
  (st.nextBlock,
   { st with
     blocks := st.blocks ++ [(st.nextBlock, { label := label, parentFn := some fidx, instrs := [] })],
     funcs := st.funcs.mapIdx (fun i f =>
       if i == fidx then { f with blockIds := f.blockIds ++ [st.nextBlock] } else f),
     nextBlock := st.nextBlock + 1 })

/-- BasicBlock::remove_from_function — unlink the block from its parent's
block list and clear its parent; fails if the block has no parent. The
block object itself survives in the store. -/
def removeBlockFromFunc (st : St) (bid : Nat) : Res St :=
  match lookupBlock st bid with
  | none => .crash
  | some blk =>
    match blk.parentFn with
    | none => .err .mergeRemoveFailed
    | some fidx =>
      .ok { st with
            funcs := st.funcs.mapIdx (fun i f =>
              if i == fidx then { f with blockIds := f.blockIds.filter (fun b => b != bid) } else f),
            blocks := st.blocks.map (fun p =>
              if p.1 == bid then (p.1, { p.2 with parentFn := none }) else p) }

/-- Builder::position_at_end. -/
def positionAt (st : St) (bid : Nat) : St :=
  { st with cur := bid }

/-- Env::push_scope. -/
def pushScope (st : St) : St :=
  { st with env := [] :: st.env }

/-- Env::pop_scope. -/
def popScope (st : St) : St :=
  { st with env := st.env.tail }

/-- Builder::build_alloca — a fresh stack slot, emitted as an instruction
at the current insertion point. -/
def buildAlloca (st : St) (ty : LTy) (name : String) : Nat × St :=
  (st.nextSlot,
   appendInstr { st with nextSlot := st.nextSlot + 1 } st.cur (.alloca st.nextSlot ty name))

/-- Module::get_function — first function with the given name. -/
def findFn (fs : List Func) (name : String) : Option Func :=
  fs.find? (fun f => f.name == name)

/-- Module::add_function — append a new empty function, returning its
index. -/
def addFunction (st : St) (name : String) (ptys : List LTy) (rty : Option LTy) : Nat × St :=
  (st.funcs.length,
   { st with funcs := st.funcs ++ [{ name := name, paramTys := ptys, retTy := rty, blockIds := [] }] })

/-- CodeGen::map_ast_type_to_llvm. -/
def mapAstTy : Ty → Res LTy
  | .i32 => .ok .i32
  | .i64 => .ok .i64
  | .f32 => .ok .f32
  | .f64 => .ok .f64
  | .void => .err (.typeNotBasic .void)
  | .string => .err (.typeNotBasic .string)

/-- CodeGen::get_default_value (zero value of the type). -/
def defaultVal : Ty → Res Val
  | .i32 => .ok ⟨.i32⟩
  | .i64 => .ok ⟨.i64⟩
  | .f32 => .ok ⟨.f32⟩
  | .f64 => .ok ⟨.f64⟩
  | t => .err (.defaultValUnsupported t)

/-- Map the declared parameter types (collected before the function type is
built). -/
def mapParamTys : List FunctionParameter → Res (List LTy)
  | [] => .ok []
  | p :: rest =>
    (mapAstTy p.ty).bind fun t =>
      (mapParamTys rest).bind fun ts => .ok (t :: ts)

/-- The function return type: a basic type on success; the `Err(_) if
r#type == Void` fallback produces a void function type; other mapping
errors propagate. -/
def fnRetTy (t : Ty) : Res (Option LTy) :=
  match mapAstTy t with
  | .ok lt => .ok (some lt)
  | .err e => if t = .void then .ok none else .err e
  | .crash => .crash
  | .fuelOut => .fuelOut

/-- Parameter lowering: per parameter an alloca, a store of the incoming
value, and a declaration in the current (function parameter) scope with
is_mutable = false. -/
def genParams (st : St) (params : List FunctionParameter) : Res St :=
  match params with
  | [] => .ok st
  | p :: rest =>
    (mapAstTy p.ty).bind fun pty =>
      match buildAlloca st pty p.name with
      | (slot, st1) =>
        let st2 := appendInstr st1 st1.cur (.store slot ⟨pty⟩)
        (declareVar st2.env p.name ⟨slot, pty, false⟩).bind fun env1 =>
          genParams { st2 with env := env1 } rest

/-- The terminator of a block: its last instruction when that instruction
is a terminator (LLVM's get_terminator). -/
def termAt (st : St) (bid : Nat) : Option Instr :=
  match lookupBlock st bid with
  | none => none
  | some b =>
    match b.instrs.getLast? with
    | some i => if i.isTerminator then some i else none
    | none => none

/-- Condition check of the `if` lowering: the condition value must be an
integer value. -/
def checkCond (v : Val) : Res Unit :=
  if v.ty.isInt then .ok () else .err .condNotInt

/-- The `let` declared-type check: performed only when an annotation is
present, after the initializer has been lowered. -/
def checkLetTy (oty : Option Ty) (v : Val) : Res Unit :=
  match oty with
  | none => .ok ()
  | some t =>
    (mapAstTy t).bind fun lt =>
      if v.ty ≠ lt then .err .letTypeMismatch else .ok ()

/-- Equality/comparison lowering shared shape: operand types must agree,
then both operands must be integers, then an icmp is emitted yielding i1. -/
def genCmpArm (st : St) (p : IPred) (lv rv : Val) (eMismatch eNotInt : CErr) : Res (Val × St) :=
  if lv.ty ≠ rv.ty then .err eMismatch
  else if lv.ty.isInt && rv.ty.isInt then
    .ok (⟨.i1⟩, appendInstr st st.cur (.cmp p lv rv))
  else .err eNotInt

/-- Logical And/Or lowering: only the integer check is performed (operand
widths are not compared), and a bitwise and/or is emitted. -/
def genLogicArm (st : St) (isAnd : Bool) (lv rv : Val) : Res (Val × St) :=
  if !(lv.ty.isInt && rv.ty.isInt) then .err .logicalNotInt
  else if isAnd then .ok (⟨lv.ty⟩, appendInstr st st.cur (.andOp lv rv))
  else .ok (⟨lv.ty⟩, appendInstr st st.cur (.orOp lv rv))

/-- Arithmetic lowering shared shape: type equality, then integer check,
then the operation. -/
def genArithArm (st : St) (mk : Val → Val → Instr) (lv rv : Val) : Res (Val × St) :=
  if lv.ty ≠ rv.ty then .err .arithTypeMismatch
  else if !(lv.ty.isInt && rv.ty.isInt) then .err .arithNotInt
  else .ok (⟨lv.ty⟩, appendInstr st st.cur (mk lv rv))

mutual

/-- CodeGen::gen_expr. Emits instructions at the current insertion point
and returns the value's type; constants emit nothing. -/
def genExpr : Nat → St → Expr → Res (Val × St)
  | 0, _, _ => .fuelOut
  | fuel+1, st, e =>
    match e with
    | .intLit _ => .ok (⟨.i32⟩, st)
    | .boolLit _ => .ok (⟨.i1⟩, st)
    | .binOp l op r =>
      (genExpr fuel st l).bind fun lst =>
        (genExpr fuel lst.2 r).bind fun rst =>
          match op with
          | .equal => genCmpArm rst.2 .eq lst.1 rst.1 .eqTypeMismatch .eqNotInt
          | .notEqual => genCmpArm rst.2 .ne lst.1 rst.1 .eqTypeMismatch .eqNotInt
          | .lessThan => genCmpArm rst.2 .slt lst.1 rst.1 .cmpTypeMismatch .cmpNotInt
          | .lessThanOrEqual => genCmpArm rst.2 .sle lst.1 rst.1 .cmpTypeMismatch .cmpNotInt
          | .greaterThan => genCmpArm rst.2 .sgt lst.1 rst.1 .cmpTypeMismatch .cmpNotInt
          | .greaterThanOrEqual => genCmpArm rst.2 .sge lst.1 rst.1 .cmpTypeMismatch .cmpNotInt
          | .and => genLogicArm rst.2 true lst.1 rst.1
          | .or => genLogicArm rst.2 false lst.1 rst.1
          | .add => genArithArm rst.2 Instr.addOp lst.1 rst.1
          | .sub => genArithArm rst.2 Instr.subOp lst.1 rst.1
          | .mul => genArithArm rst.2 Instr.mulOp lst.1 rst.1
          | .div => genArithArm rst.2 Instr.divOp lst.1 rst.1
    | .unaryOp uop e1 =>
      (genExpr fuel st e1).bind fun vst =>
        match uop with
        | .neg =>
          if !vst.1.ty.isInt then .err .negNotInt
          else .ok (⟨.i32⟩, appendInstr vst.2 vst.2.cur (.subOp ⟨.i32⟩ vst.1))
        | .not =>
          if !vst.1.ty.isInt then .err .notNotInt
          else .ok (⟨vst.1.ty⟩, appendInstr vst.2 vst.2.cur (.notOp vst.1))
    | .fnCall name args =>
      match findFn st.funcs name with
      | none => .err (.fnNotFound name)
      | some f =>
        (genExprs fuel st args).bind fun ast =>
          let st2 := appendInstr ast.2 ast.2.cur (.call name ast.1)
          match f.retTy with
          | none => .crash
          | some t => .ok (⟨t⟩, st2)
    | .varRef name =>
      (resolveVar st.env name).bind fun vi =>
        .ok (⟨vi.ty⟩, appendInstr st st.cur (.load vi.slot vi.ty name))

/-- Argument-list lowering, in order. -/
def genExprs : Nat → St → List Expr → Res (List Val × St)
  | 0, _, _ => .fuelOut
  | _+1, st, [] => .ok ([], st)
  | fuel+1, st, e :: es =>
    (genExpr fuel st e).bind fun vst =>
      (genExprs fuel vst.2 es).bind fun vsst =>
        .ok (vst.1 :: vsst.1, vsst.2)

end

mutual

/-- CodeGen::gen_stmt. The `isLast` flag is gen_stmt's `is_last_stmt`
argument: true exactly when this statement is the last statement of a
block lowered with `is_last_block = true` (the chain of tail positions
rooted at a function body). -/
def genStmt : Nat → St → Stmt → Bool → Res St
  | 0, _, _, _ => .fuelOut
  | fuel+1, st, s, isLast =>
    match s with
    | .fnDecl name params retTy body =>
      let initialPos := st.cur
      (mapParamTys params).bind fun ptys =>
        (fnRetTy retTy).bind fun rty =>
          match addFunction st name ptys rty with
          | (fidx, st1) =>
            match appendBlockToFunc st1 fidx ("entry") with
            | (bid, st2) =>
              let st3 := pushScope (positionAt st2 bid)
              (genParams st3 params).bind fun st4 =>
                (genBlock fuel st4 body true).bind fun st5 =>
                  .ok (positionAt (popScope st5) initialPos)
    | .ret oe =>
      match oe with
      | some e =>
        (genExpr fuel st e).bind fun vst =>
          .ok (appendInstr vst.2 vst.2.cur (.ret (some vst.1)))
      | none => .ok (appendInstr st st.cur (.ret none))
    | .exprStmt e =>
      (genExpr fuel st e).bind fun vst => .ok vst.2
    | .tailExpr e =>
      (genExpr fuel st e).bind fun vst =>
        .ok (appendInstr vst.2 vst.2.cur (.ret (some vst.1)))
    | .letDecl name oty oval =>
      match oval with
      | none => .err .letNeedsInit
      | some e =>
        (genExpr fuel st e).bind fun vst =>
          (checkLetTy oty vst.1).bind fun _ =>
            match buildAlloca vst.2 vst.1.ty name with
            | (slot, st2) =>
              let st3 := appendInstr st2 st2.cur (.store slot vst.1)
              (declareVar st3.env name ⟨slot, vst.1.ty, false⟩).bind fun env1 =>
                .ok { st3 with env := env1 }
    | .varDecl name oty oval =>
      (match oval with
       | some e => genExpr fuel st e
       | none =>
         match oty with
         | none => .err .varNeedsType
         | some t => (defaultVal t).bind fun v => .ok (v, st)).bind fun vst =>
        match buildAlloca vst.2 vst.1.ty name with
        | (slot, st2) =>
          let st3 := appendInstr st2 st2.cur (.store slot vst.1)
          (declareVar st3.env name ⟨slot, vst.1.ty, true⟩).bind fun env1 =>
            .ok { st3 with env := env1 }
    | .assign name e =>
      (genExpr fuel st e).bind fun vst =>
        (resolveVar vst.2.env name).bind fun vi =>
          if !vi.isMutable then .err (.immutableAssign name)
          else
            let st2 := appendInstr vst.2 vst.2.cur (.load vi.slot vi.ty ("loadtmp"))
            if vst.1.ty ≠ vi.ty then .err (.assignTypeMismatch name)
            else .ok (appendInstr st2 st2.cur (.store vi.slot vst.1))
    | .ifStmt cond thenB elseB =>
      match lookupBlock st st.cur with
      | none => .crash
      | some blk =>
        match blk.parentFn with
        | none => .crash
        | some fidx =>
          match appendBlockToFunc st fidx ("then") with
          | (thenId, stT) =>
            match elseB with
            | none =>
              match appendBlockToFunc stT fidx ("ifcont") with
              | (mergeId, stM) =>
                (genExpr fuel stM cond).bind fun cst =>
                  (checkCond cst.1).bind fun _ =>
                    let st1 := appendInstr cst.2 cst.2.cur (.condBr cst.1 thenId mergeId)
                    let st2 := positionAt st1 thenId
                    (genBlock fuel st2 thenB isLast).bind fun st3 =>
                      let st4 :=
                        if (termAt st3 st3.cur).isNone then
                          appendInstr st3 st3.cur (.br mergeId)
                        else st3
                      (if isLast then removeBlockFromFunc st4 mergeId else .ok st4).bind
                        fun st5 => .ok (positionAt st5 mergeId)
            | some elseStmts =>
              match appendBlockToFunc stT fidx ("else") with
              | (elseId, stE) =>
                match appendBlockToFunc stE fidx ("ifcont") with
                | (mergeId, stM) =>
                  (genExpr fuel stM cond).bind fun cst =>
                    (checkCond cst.1).bind fun _ =>
                      let st1 := appendInstr cst.2 cst.2.cur (.condBr cst.1 thenId elseId)
                      let st2 := positionAt st1 thenId
                      (genBlock fuel st2 thenB isLast).bind fun st3 =>
                        let st4 :=
                          if (termAt st3 st3.cur).isNone then
                            appendInstr st3 st3.cur (.br mergeId)
                          else st3
                        let st5 := positionAt st4 elseId
                        (genBlock fuel st5 elseStmts isLast).bind fun st6 =>
                          let st7 :=
                            if (termAt st6 st6.cur).isNone then
                              appendInstr st6 st6.cur (.br mergeId)
                            else st6
                          (if isLast then removeBlockFromFunc st7 mergeId else .ok st7).bind
                            fun st8 => .ok (positionAt st8 mergeId)

/-- The statement loop of CodeGen::gen_block: `is_last_stmt` is
`is_last_block && (i == stmts.len() - 1)`. -/
def genStmts : Nat → St → List Stmt → Bool → Res St
  | 0, _, _, _ => .fuelOut
  | _+1, st, [], _ => .ok st
  | fuel+1, st, s :: rest, isLastBlock =>
    (genStmt fuel st s (isLastBlock && rest.isEmpty)).bind fun st1 =>
      genStmts fuel st1 rest isLastBlock

/-- CodeGen::gen_block — push a scope, lower the statements, pop it. -/
def genBlock : Nat → St → List Stmt → Bool → Res St
  | 0, _, _, _ => .fuelOut
  | fuel+1, st, stmts, isLastBlock =>
    (genStmts fuel (pushScope st) stmts isLastBlock).bind fun st1 =>
      .ok (popScope st1)

end

/-- The state CodeGen::compile sets up before gen_program: the implicit
`main` function (i32 return, no parameters) with its entry block as the
insertion point, and the fresh environment of CodeGen::new with one empty
scope. -/
def initSt : St :=
  { funcs := [{ name := ("main"), paramTys := [], retTy := some .i32, blockIds := [0] }],
    blocks := [(0, { label := ("entry"), parentFn := some 0, instrs := [] })],
    cur := 0,
    nextBlock := 1,
    nextSlot := 0,
    env := [[]] }

/-- CodeGen::compile up to and including gen_program (module verification
is outside the model): gen_program lowers the program's statements as the
body of `main` with `is_last_block = true`. -/
def compileUnit (fuel : Nat) (p : Program) : Res St :=
  genBlock fuel initSt p.statements true

/-! Extension of blocks by non-terminator instructions: the relation
established by expression lowering. -/

/-- One block extended by appended non-terminator instructions. -/
def blockExt (b b1 : Block) : Prop :=
  b1.label = b.label ∧ b1.parentFn = b.parentFn ∧
    ∃ t, b1.instrs = b.instrs ++ t ∧ ∀ i ∈ t, i.isTerminator = false

/-- Pointwise extension of the whole block store (same ids, same order). -/
def blocksExt (bs bs1 : List (Nat × Block)) : Prop :=
  List.Forall₂ (fun p q => p.1 = q.1 ∧ blockExt p.2 q.2) bs bs1

/-- What expression lowering can do to the state: emit non-terminator
instructions at existing blocks. Everything else — the insertion point,
the function table, the environment, the block-id counter — is untouched. -/
structure ExprStep (st st1 : St) : Prop where
  funcs_eq : st1.funcs = st.funcs
  cur_eq : st1.cur = st.cur
  nextBlock_eq : st1.nextBlock = st.nextBlock
  env_eq : st1.env = st.env
  blocks_ext : blocksExt st.blocks st1.blocks

/-- What statement lowering can do to blocks that already existed when it
started: only append instructions. Fresh blocks (ids at or above the
starting counter) may be created, extended, or removed, but a
pre-existing block keeps its identity, label and parent. -/
def StepLow (st st1 : St) : Prop :=
  st.nextBlock ≤ st1.nextBlock ∧
  ∀ bid blk, bid < st.nextBlock → lookupBlock st bid = some blk →
    ∃ t, lookupBlock st1 bid = some { blk with instrs := blk.instrs ++ t }

/-- Statement steps that touch only the environment, the insertion point
or counters, and extend blocks by non-terminator instructions. Holds for
parameter lowering and for bodies made only of expression statements. -/
def NTStep (st st1 : St) : Prop :=
  st1.funcs = st.funcs ∧ st1.nextBlock = st.nextBlock ∧
  blocksExt st.blocks st1.blocks

/-- Whether a token is the lexer's general identifier token. -/
def tokenIsIdentifier : Token → Bool
  | .identifier _ => true
  | _ => false

/-- The C8 claim at its own six inputs: each keyword spelling lexes to a
single dedicated (non-identifier) token. -/
def c8KeywordClaimHolds : Bool :=
  [("fn"), ("let"), ("var"), ("if"), ("else"), ("return")].all
    (fun s => match lexText s with
      | [t] => !(tokenIsIdentifier t)
      | _ => false)

/-- Twenty 9 digits: lexes as one integer token whose value exceeds
i64::MAX. -/
def c9Source : String := "99999999999999999999"

/-- The state after lowering `fn f() -> void {}` from the initial state:
the module holds `main` and the void function `f` with its empty entry
block. -/
def stVoidF : St :=
  { funcs := [{ name := ("main"), paramTys := [], retTy := some .i32, blockIds := [0] },
              { name := ("f"), paramTys := [], retTy := none, blockIds := [1] }],
    blocks := [(0, { label := ("entry"), parentFn := some 0, instrs := [] }),
               (1, { label := ("entry"), parentFn := some 1, instrs := [] })],
    cur := 0,
    nextBlock := 2,
    nextSlot := 0,
    env := [[]] }

/-- The C1 claim's concrete input: a void function whose body ends with no
terminator (`fn f() -> void { 1; }`). -/
def c1Fn : Stmt := .fnDecl ("f") [] .void [.exprStmt (.intLit 1)]

/-- The C1 claim at that input: after lowering, does any block of the new
function contain a return instruction (the synthesized void return the
claim promises)? Evaluates to `true` also when lowering fails, so `false`
additionally certifies that lowering succeeded. -/
def c1VoidReturnSynthesized : Bool :=
  match genStmt 9 initSt c1Fn false with
  | .ok st1 =>
    match st1.funcs[1]? with
    | some f => f.blockIds.any (fun bid =>
        match lookupBlock st1 bid with
        | some blk => blk.instrs.any Instr.isRet
        | none => false)
    | none => true
  | _ => true

/-- The state after lowering `fn f() -> void { 1; }` (the integer constant
emits no instruction, so this coincides with lowering an empty body). -/
def stVoidF2 : St :=
  { funcs := [{ name := ("main"), paramTys := [], retTy := some .i32, blockIds := [0] },
              { name := ("f"), paramTys := [], retTy := none, blockIds := [1] }],
    blocks := [(0, { label := ("entry"), parentFn := some 0, instrs := [] }),
               (1, { label := ("entry"), parentFn := some 1, instrs := [] })],
    cur := 0,
    nextBlock := 2,
    nextSlot := 0,
    env := [[]] }

/-- The state after lowering `if true { 1; }` in tail position from the
initial state: the merge block (id 2) was removed from `main` — its block
list is [0, 1] — while the fall-through `then` block (id 1) still ends in
a branch to the removed block. -/
def c2St : St :=
  { funcs := [{ name := ("main"), paramTys := [], retTy := some .i32, blockIds := [0, 1] }],
    blocks := [(0, { label := ("entry"), parentFn := some 0, instrs := [.condBr ⟨.i1⟩ 1 2] }),
               (1, { label := ("then"), parentFn := some 0, instrs := [.br 2] }),
               (2, { label := ("ifcont"), parentFn := none, instrs := [] })],
    cur := 2,
    nextBlock := 3,
    nextSlot := 0,
    env := [[]] }

/-- The C3 claim's concrete input: a tail expression inside a nested `if`
branch (not the function's outermost body). -/
def c3Stmt : Stmt := .ifStmt (.boolLit true) [.tailExpr (.intLit 1)] none

/-- The C3 claim at that input: after lowering the `if` (not in tail
position), does the nested `then` block (block 1) contain a return
instruction? The claim says a nested tail expression is not emitted as a
function return, predicting `false`. -/
def c3NestedTailReturn : Bool :=
  match genStmt 9 initSt c3Stmt false with
  | .ok st1 =>
    match lookupBlock st1 1 with
    | some blk => decide (blk.label = ("then")) && blk.instrs.any Instr.isRet
    | none => false
  | _ => false

/-- The C4 claim's concrete input: `var x: i64 = 1;` — the declared type
disagrees with the initializer's inferred type (i32). -/
def c4Var : Stmt := .varDecl ("x") (some .i64) (some (.intLit 1))

/-- The C4 claim at that input: does lowering fail (with any error)? The
claim predicts a TypeMismatch failure. -/
def c4VarMismatchRejected : Bool :=
  match genStmt 9 initSt c4Var false with
  | .err _ => true
  | _ => false

/-- The binding produced for `x` by that lowering. -/
def c4VarBinding : Res VarInfo :=
  match genStmt 9 initSt c4Var false with
  | .ok st1 => resolveVar st1.env ("x")
  | .err e => .err e
  | .crash => .crash
  | .fuelOut => .fuelOut

/-- A state whose scope holds an immutable `a : i32`, a mutable `b : i32`
and a mutable `c : i64`, for exercising the assignment paths. -/
def c5StW : St :=
  { initSt with
    env := [[(("a"), ⟨0, .i32, false⟩), (("b"), ⟨1, .i32, true⟩), (("c"), ⟨2, .i64, true⟩)]],
    nextSlot := 3 }

/-- A two-scope environment: the inner scope shadows `x`, the outer scope
additionally binds `y`. -/
def c6Env : Env :=
  [[(("x"), ⟨0, .i32, false⟩)], [(("x"), ⟨1, .i64, true⟩), (("y"), ⟨2, .i32, true⟩)]]

/-- The C5 claim's concrete input: `let x = 1; x = y;` — the assignment
target `x` is let-bound (immutable) and the assigned value references the
unbound name `y`. -/
def c5Prog : Program := ⟨[.letDecl ("x") none (some (.intLit 1)), .assign ("x") (.varRef ("y"))]⟩

/-! ## Proof toolbox -/
theorem Res.bind_eq_ok {α β : Type} {r : Res α} {f : α → Res β} {b : β} :
    r.bind f = .ok b ↔ ∃ a, r = .ok a ∧ f a = .ok b := by
  cases r <;> simp [Res.bind]

/-- find? commutes with a map that preserves the key component. -/
theorem find?_fst_map (g : Nat × Block → Nat × Block) (hg : ∀ p, (g p).1 = p.1)
    (l : List (Nat × Block)) (bid : Nat) :
    (l.map g).find? (fun p => p.1 == bid) = (l.find? (fun p => p.1 == bid)).map g := by
  induction l with
  | nil => simp
  | cons p rest ih =>
    simp only [List.map_cons, List.find?, hg p]
    cases hpb : (p.1 == bid) <;> simp [ih]

theorem lookupBlock_appendInstr (st : St) (b : Nat) (i : Instr) (bid : Nat) :
    lookupBlock (appendInstr st b i) bid =
      (lookupBlock st bid).map
        (fun blk => if bid = b then { blk with instrs := blk.instrs ++ [i] } else blk) := by
  unfold lookupBlock appendInstr
  rw [show ({ st with blocks := st.blocks.map (fun p =>
      if p.1 == b then (p.1, { p.2 with instrs := p.2.instrs ++ [i] }) else p) } : St).blocks
    = st.blocks.map (fun p =>
      if p.1 == b then (p.1, { p.2 with instrs := p.2.instrs ++ [i] }) else p) from rfl]
  rw [find?_fst_map]
  · cases hf : st.blocks.find? (fun p => p.1 == bid) with
    | none => simp
    | some p =>
      have hp : p.1 = bid := by
        have := List.find?_some hf
        simpa using this
      by_cases hb : bid = b
      · simp [hp, hb]
      · simp [hp, hb]
  · intro p
    by_cases hpb : p.1 == b <;> simp [hpb]

theorem lookupBlock_appendInstr_ne (st : St) (b : Nat) (i : Instr) (bid : Nat) (h : bid ≠ b) :
    lookupBlock (appendInstr st b i) bid = lookupBlock st bid := by
  rw [lookupBlock_appendInstr]
  cases lookupBlock st bid <;> simp [h]

theorem lookupBlock_appendBlock (st : St) (fidx : Nat) (lbl : String) (bid : Nat) :
    lookupBlock (appendBlockToFunc st fidx lbl).2 bid =
      (lookupBlock st bid).or
        (if bid = st.nextBlock then some { label := lbl, parentFn := some fidx, instrs := [] } else none) := by
  unfold lookupBlock appendBlockToFunc
  simp only
  rw [List.find?_append]
  cases hf : st.blocks.find? (fun p => p.1 == bid) with
  | none =>
    by_cases hb : bid = st.nextBlock
    · simp [List.find?, hb]
    · have hnb : (st.nextBlock == bid) = false := by
        simpa using Ne.symm hb
      simp [List.find?, hnb, hb]
  | some p => simp

theorem blockExt_refl (b : Block) : blockExt b b :=
  ⟨rfl, rfl, [], by simp, by simp⟩

theorem blockExt_trans {a b c : Block} (h1 : blockExt a b) (h2 : blockExt b c) : blockExt a c := by
  obtain ⟨hl1, hp1, t1, hi1, hn1⟩ := h1
  obtain ⟨hl2, hp2, t2, hi2, hn2⟩ := h2
  refine ⟨hl2.trans hl1, hp2.trans hp1, t1 ++ t2, by simp [hi2, hi1], ?_⟩
  intro i hi
  rcases List.mem_append.mp hi with h | h
  · exact hn1 i h
  · exact hn2 i h

theorem blocksExt_refl (bs : List (Nat × Block)) : blocksExt bs bs := by
  induction bs with
  | nil => exact .nil
  | cons p rest ih => exact .cons ⟨rfl, blockExt_refl p.2⟩ ih

theorem blocksExt_trans {a b c : List (Nat × Block)} (h1 : blocksExt a b) (h2 : blocksExt b c) :
    blocksExt a c := by
  induction h1 generalizing c with
  | nil => cases h2; exact .nil
  | cons hpq h1 ih =>
    cases h2 with
    | cons hqr h2 =>
      exact .cons ⟨hpq.1.trans hqr.1, blockExt_trans hpq.2 hqr.2⟩ (ih h2)

theorem blocksExt_appendInstr (bs : List (Nat × Block)) (b : Nat) (i : Instr)
    (hi : i.isTerminator = false) :
    blocksExt bs (bs.map (fun p =>
      if p.1 == b then (p.1, { p.2 with instrs := p.2.instrs ++ [i] }) else p)) := by
  induction bs with
  | nil => exact .nil
  | cons p rest ih =>
    refine .cons ⟨?_, ?_⟩ ih
    · by_cases hpb : (p.1 == b) = true <;> simp [hpb]
    · by_cases hpb : (p.1 == b) = true
      · simp only [hpb, if_true]
        refine ⟨rfl, rfl, [i], rfl, ?_⟩
        intro j hj
        simp only [List.mem_singleton] at hj
        subst hj
        exact hi
      · simp only [hpb, if_false]
        exact blockExt_refl p.2

theorem blocksExt_find? {bs bs1 : List (Nat × Block)} (h : blocksExt bs bs1) (bid : Nat) :
    ∀ p, bs.find? (fun p0 => p0.1 == bid) = some p →
      ∃ q, bs1.find? (fun p0 => p0.1 == bid) = some q ∧ p.1 = q.1 ∧ blockExt p.2 q.2 := by
  induction h with
  | nil => intro p hp; simp at hp
  | cons hpq h ih =>
    intro p hp
    rename_i a b as bs0
    by_cases hab : a.1 == bid
    · simp only [List.find?, hab] at hp
      have hb : (b.1 == bid) = true := by
        rw [← hpq.1]; exact hab
      refine ⟨b, ?_, ?_, ?_⟩
      · simp [List.find?, hb]
      · cases hp; exact hpq.1
      · cases hp; exact hpq.2
    · simp only [List.find?, hab] at hp
      have hb : (b.1 == bid) = false := by
        rw [← hpq.1]; simpa using hab
      obtain ⟨q, hq, hq1, hq2⟩ := ih p hp
      exact ⟨q, by simp [List.find?, hb, hq], hq1, hq2⟩

theorem exprStep_refl (st : St) : ExprStep st st :=
  ⟨Eq.refl _, Eq.refl _, Eq.refl _, Eq.refl _, blocksExt_refl st.blocks⟩

theorem exprStep_trans {a b c : St} (h1 : ExprStep a b) (h2 : ExprStep b c) : ExprStep a c :=
  ⟨h2.funcs_eq.trans h1.funcs_eq, h2.cur_eq.trans h1.cur_eq,
   h2.nextBlock_eq.trans h1.nextBlock_eq, h2.env_eq.trans h1.env_eq,
   blocksExt_trans h1.blocks_ext h2.blocks_ext⟩

theorem exprStep_appendInstr (st : St) (b : Nat) (i : Instr) (hi : i.isTerminator = false) :
    ExprStep st (appendInstr st b i) :=
  ⟨Eq.refl _, Eq.refl _, Eq.refl _, Eq.refl _, blocksExt_appendInstr st.blocks b i hi⟩

theorem genCmpArm_step {st : St} {p : IPred} {a b : Val} {e1 e2 : CErr} {v : Val} {st1 : St}
    (h : genCmpArm st p a b e1 e2 = .ok (v, st1)) : ExprStep st st1 := by
  unfold genCmpArm at h
  split at h
  · exact absurd h (by simp)
  · split at h
    · cases h
      exact exprStep_appendInstr st st.cur _ (Eq.refl _)
    · exact absurd h (by simp)

theorem genLogicArm_step {st : St} {isAnd : Bool} {a b : Val} {v : Val} {st1 : St}
    (h : genLogicArm st isAnd a b = .ok (v, st1)) : ExprStep st st1 := by
  unfold genLogicArm at h
  split at h
  · exact absurd h (by simp)
  · split at h <;>
    · cases h
      exact exprStep_appendInstr st st.cur _ (Eq.refl _)

theorem genArithArm_step (mk : Val → Val → Instr)
    (hmk : ∀ x y, (mk x y).isTerminator = false)
    {st : St} {a b : Val} {v : Val} {st1 : St}
    (h : genArithArm st mk a b = .ok (v, st1)) : ExprStep st st1 := by
  unfold genArithArm at h
  split at h
  · exact absurd h (by simp)
  · split at h
    · exact absurd h (by simp)
    · cases h
      exact exprStep_appendInstr st st.cur _ (hmk a b)

/-- Expression lowering only extends blocks with non-terminator
instructions (joint statement for gen_expr and the argument list). -/
theorem genExpr_step : ∀ fuel : Nat,
    (∀ st e v st1, genExpr fuel st e = .ok (v, st1) → ExprStep st st1) ∧
    (∀ st es vs st1, genExprs fuel st es = .ok (vs, st1) → ExprStep st st1) := by
  intro fuel
  induction fuel with
  | zero =>
    constructor
    · intro st e v st1 h
      simp [genExpr] at h
    · intro st es vs st1 h
      simp [genExprs] at h
  | succ fuel ih =>
    obtain ⟨ihE, ihEs⟩ := ih
    constructor
    · intro st e v st1 h
      cases e with
      | intLit n =>
        simp only [genExpr] at h
        cases h
        exact exprStep_refl st
      | boolLit b =>
        simp only [genExpr] at h
        cases h
        exact exprStep_refl st
      | binOp l op r =>
        simp only [genExpr] at h
        rw [Res.bind_eq_ok] at h
        obtain ⟨⟨lv, stl⟩, hl, h⟩ := h
        rw [Res.bind_eq_ok] at h
        obtain ⟨⟨rv, str⟩, hr, h⟩ := h
        have s1 := ihE st l lv stl hl
        have s2 := ihE stl r rv str hr
        have s3 : ExprStep str st1 := by
          cases op
          case equal => exact genCmpArm_step h
          case notEqual => exact genCmpArm_step h
          case lessThan => exact genCmpArm_step h
          case lessThanOrEqual => exact genCmpArm_step h
          case greaterThan => exact genCmpArm_step h
          case greaterThanOrEqual => exact genCmpArm_step h
          case and => exact genLogicArm_step h
          case or => exact genLogicArm_step h
          case add => exact genArithArm_step Instr.addOp (fun x y => Eq.refl _) h
          case sub => exact genArithArm_step Instr.subOp (fun x y => Eq.refl _) h
          case mul => exact genArithArm_step Instr.mulOp (fun x y => Eq.refl _) h
          case div => exact genArithArm_step Instr.divOp (fun x y => Eq.refl _) h
        exact exprStep_trans (exprStep_trans s1 s2) s3
      | unaryOp uop e1 =>
        simp only [genExpr] at h
        rw [Res.bind_eq_ok] at h
        obtain ⟨⟨v0, st0⟩, h0, h⟩ := h
        have s1 := ihE st e1 v0 st0 h0
        cases uop
        case neg =>
          simp only at h
          split at h
          · exact absurd h (by simp)
          · cases h
            exact exprStep_trans s1 (exprStep_appendInstr st0 st0.cur _ (Eq.refl _))
        case not =>
          simp only at h
          split at h
          · exact absurd h (by simp)
          · cases h
            exact exprStep_trans s1 (exprStep_appendInstr st0 st0.cur _ (Eq.refl _))
      | fnCall name args =>
        simp only [genExpr] at h
        cases hff : findFn st.funcs name with
        | none =>
          rw [hff] at h
          exact absurd h (by simp)
        | some f =>
          rw [hff] at h
          simp only [Res.bind_eq_ok] at h
          obtain ⟨⟨vs0, st0⟩, h0, h⟩ := h
          have s1 := ihEs st args vs0 st0 h0
          cases hrt : f.retTy with
          | none =>
            rw [hrt] at h
            exact absurd h (by simp)
          | some t =>
            rw [hrt] at h
            cases h
            exact exprStep_trans s1 (exprStep_appendInstr st0 st0.cur _ (Eq.refl _))
      | varRef name =>
        simp only [genExpr] at h
        rw [Res.bind_eq_ok] at h
        obtain ⟨vi, h0, h⟩ := h
        cases h
        exact exprStep_appendInstr st st.cur _ (Eq.refl _)
    · intro st es vs st1 h
      cases es with
      | nil =>
        simp only [genExprs] at h
        cases h
        exact exprStep_refl st
      | cons e rest =>
        simp only [genExprs] at h
        rw [Res.bind_eq_ok] at h
        obtain ⟨⟨v0, st0⟩, h0, h⟩ := h
        rw [Res.bind_eq_ok] at h
        obtain ⟨⟨vs0, st2⟩, h2, h⟩ := h
        cases h
        exact exprStep_trans (ihE st e v0 st0 h0) (ihEs st0 rest vs0 st2 h2)

theorem stepLow_refl (st : St) : StepLow st st := by
  refine ⟨Nat.le_refl _, ?_⟩
  intro bid blk _ hlk
  exact ⟨[], by simpa using hlk⟩

theorem stepLow_trans {a b c : St} (h1 : StepLow a b) (h2 : StepLow b c) : StepLow a c := by
  refine ⟨h1.1.trans h2.1, ?_⟩
  intro bid blk hbid hlk
  obtain ⟨t1, hl1⟩ := h1.2 bid blk hbid hlk
  obtain ⟨t2, hl2⟩ := h2.2 bid _ (Nat.lt_of_lt_of_le hbid h1.1) hl1
  exact ⟨t1 ++ t2, by simpa [List.append_assoc] using hl2⟩

theorem stepLow_of_blocks_eq {st st1 : St} (hb : st1.blocks = st.blocks)
    (hn : st.nextBlock ≤ st1.nextBlock) : StepLow st st1 := by
  refine ⟨hn, ?_⟩
  intro bid blk _ hlk
  refine ⟨[], ?_⟩
  unfold lookupBlock at hlk ⊢
  rw [hb]
  simpa using hlk

theorem stepLow_appendInstr (st : St) (b : Nat) (i : Instr) : StepLow st (appendInstr st b i) := by
  refine ⟨Nat.le_refl _, ?_⟩
  intro bid blk _ hlk
  rw [lookupBlock_appendInstr, hlk]
  by_cases hb : bid = b
  · exact ⟨[i], by simp [hb]⟩
  · exact ⟨[], by simp [hb]⟩

theorem stepLow_appendBlock (st : St) (fidx : Nat) (lbl : String) :
    StepLow st (appendBlockToFunc st fidx lbl).2 := by
  refine ⟨Nat.le_succ _, ?_⟩
  intro bid blk hbid hlk
  rw [lookupBlock_appendBlock, hlk]
  exact ⟨[], by simp⟩

/-- Full description of a successful remove_from_function. -/
theorem removeBlock_spec {st : St} {bid0 : Nat} {st1 : St}
    (h : removeBlockFromFunc st bid0 = .ok st1) :
    st1.nextBlock = st.nextBlock ∧ st1.cur = st.cur ∧ st1.env = st.env ∧
    (∀ bid, bid ≠ bid0 → lookupBlock st1 bid = lookupBlock st bid) ∧
    ∃ blk fidx, lookupBlock st bid0 = some blk ∧ blk.parentFn = some fidx ∧
      st1.funcs = st.funcs.mapIdx (fun i f =>
        if i == fidx then { f with blockIds := f.blockIds.filter (fun x => x != bid0) } else f) := by
  unfold removeBlockFromFunc at h
  split at h
  · exact absurd h (by simp)
  · rename_i blk hlk
    split at h
    · exact absurd h (by simp)
    · rename_i fidx hpf
      cases h
      refine ⟨Eq.refl _, Eq.refl _, Eq.refl _, ?_, blk, fidx, hlk, hpf, Eq.refl _⟩
      intro bid hne
      unfold lookupBlock
      simp only
      rw [find?_fst_map]
      · cases hf : st.blocks.find? (fun p => p.1 == bid) with
        | none => simp
        | some p =>
          have hp : p.1 = bid := by
            have := List.find?_some hf
            simpa using this
          simp [hp, hne]
      · intro p
        by_cases hpb : p.1 == bid0 <;> simp [hpb]

theorem lookupBlock_eq_some_iff {st : St} {bid : Nat} {blk : Block} :
    lookupBlock st bid = some blk ↔
      ∃ p, st.blocks.find? (fun p0 => p0.1 == bid) = some p ∧ p.2 = blk := by
  unfold lookupBlock
  cases hf : st.blocks.find? (fun p0 => p0.1 == bid) <;> simp

theorem stepLow_of_exprStep {st st1 : St} (h : ExprStep st st1) : StepLow st st1 := by
  refine ⟨Nat.le_of_eq h.nextBlock_eq.symm, ?_⟩
  intro bid blk hbid hlk
  obtain ⟨p, hf, hp2⟩ := lookupBlock_eq_some_iff.mp hlk
  obtain ⟨q, hq, hq1, hq2⟩ := blocksExt_find? h.blocks_ext bid p hf
  obtain ⟨hlab, hpar, t, hins, _⟩ := hq2
  refine ⟨t, lookupBlock_eq_some_iff.mpr ⟨q, hq, ?_⟩⟩
  subst hp2
  obtain ⟨qid, ql, qp, qi⟩ := q
  simp only at hlab hpar hins
  simp [hlab, hpar, hins]

theorem stepLow_of_blocksExt {st st1 : St} (hb : blocksExt st.blocks st1.blocks)
    (hn : st.nextBlock ≤ st1.nextBlock) : StepLow st st1 := by
  refine ⟨hn, ?_⟩
  intro bid blk hbid hlk
  obtain ⟨p, hf, hp2⟩ := lookupBlock_eq_some_iff.mp hlk
  obtain ⟨q, hq, hq1, hq2⟩ := blocksExt_find? hb bid p hf
  obtain ⟨hlab, hpar, t, hins, _⟩ := hq2
  refine ⟨t, lookupBlock_eq_some_iff.mpr ⟨q, hq, ?_⟩⟩
  subst hp2
  obtain ⟨qid, ql, qp, qi⟩ := q
  simp only at hlab hpar hins
  simp [hlab, hpar, hins]

theorem ntStep_refl (st : St) : NTStep st st :=
  ⟨Eq.refl _, Eq.refl _, blocksExt_refl st.blocks⟩

theorem ntStep_trans {a b c : St} (h1 : NTStep a b) (h2 : NTStep b c) : NTStep a c :=
  ⟨h2.1.trans h1.1, h2.2.1.trans h1.2.1, blocksExt_trans h1.2.2 h2.2.2⟩

theorem ntStep_of_exprStep {st st1 : St} (h : ExprStep st st1) : NTStep st st1 :=
  ⟨h.funcs_eq, h.nextBlock_eq, h.blocks_ext⟩

theorem ntStep_appendInstr (st : St) (b : Nat) (i : Instr) (hi : i.isTerminator = false) :
    NTStep st (appendInstr st b i) :=
  ⟨Eq.refl _, Eq.refl _, blocksExt_appendInstr st.blocks b i hi⟩

theorem ntStep_setEnv (st : St) (e : Env) : NTStep st { st with env := e } :=
  ⟨Eq.refl _, Eq.refl _, blocksExt_refl st.blocks⟩

theorem ntStep_setNextSlot (st : St) (n : Nat) : NTStep st { st with nextSlot := n } :=
  ⟨Eq.refl _, Eq.refl _, blocksExt_refl st.blocks⟩

theorem ntStep_pushScope (st : St) : NTStep st (pushScope st) :=
  ⟨Eq.refl _, Eq.refl _, blocksExt_refl st.blocks⟩

theorem ntStep_popScope (st : St) : NTStep st (popScope st) :=
  ⟨Eq.refl _, Eq.refl _, blocksExt_refl st.blocks⟩

theorem ntStep_positionAt (st : St) (b : Nat) : NTStep st (positionAt st b) :=
  ⟨Eq.refl _, Eq.refl _, blocksExt_refl st.blocks⟩

theorem stepLow_of_ntStep {st st1 : St} (h : NTStep st st1) : StepLow st st1 :=
  stepLow_of_blocksExt h.2.2 (Nat.le_of_eq h.2.1.symm)

/-- Parameter lowering is an NTStep: an alloca and a store per parameter,
plus environment updates. -/
theorem genParams_nt : ∀ params st st1, genParams st params = .ok st1 → NTStep st st1 := by
  intro params
  induction params with
  | nil =>
    intro st st1 h
    simp only [genParams] at h
    cases h
    exact ntStep_refl st
  | cons p rest ih =>
    intro st st1 h
    simp only [genParams] at h
    rw [Res.bind_eq_ok] at h
    obtain ⟨pty, hpty, h⟩ := h
    rw [Res.bind_eq_ok] at h
    obtain ⟨env1, henv, h⟩ := h
    have h2 := ih _ _ h
    refine ntStep_trans ?_ h2
    refine ntStep_trans ?_ (ntStep_setEnv _ env1)
    refine ntStep_trans ?_ (ntStep_appendInstr _ _ _ (Eq.refl _))
    unfold buildAlloca
    refine ntStep_trans (ntStep_setNextSlot st _) (ntStep_appendInstr _ _ _ (Eq.refl _))

theorem stepLow_positionAt (st : St) (b : Nat) : StepLow st (positionAt st b) :=
  stepLow_of_blocks_eq rfl (Nat.le_refl _)

theorem stepLow_pushScope (st : St) : StepLow st (pushScope st) :=
  stepLow_of_blocks_eq rfl (Nat.le_refl _)

theorem stepLow_popScope (st : St) : StepLow st (popScope st) :=
  stepLow_of_blocks_eq rfl (Nat.le_refl _)

theorem stepLow_pushPos (st : St) (b : Nat) : StepLow st (pushScope (positionAt st b)) :=
  stepLow_of_blocks_eq rfl (Nat.le_refl _)

theorem stepLow_addFunction (st : St) (n : String) (p : List LTy) (r : Option LTy) :
    StepLow st (addFunction st n p r).2 :=
  stepLow_of_blocks_eq rfl (Nat.le_refl _)

/-- Statement lowering (jointly with statement lists and blocks) is a
StepLow: pre-existing blocks are only extended with instructions; the
block-id counter never decreases. -/
theorem genStmt_low : ∀ fuel : Nat,
    (∀ st s last st1, genStmt fuel st s last = .ok st1 → StepLow st st1) ∧
    (∀ st ss last st1, genStmts fuel st ss last = .ok st1 → StepLow st st1) ∧
    (∀ st ss last st1, genBlock fuel st ss last = .ok st1 → StepLow st st1) := by
  intro fuel
  induction fuel with
  | zero =>
    refine ⟨?_, ?_, ?_⟩ <;> intro st s last st1 h
    · simp [genStmt] at h
    · simp [genStmts] at h
    · simp [genBlock] at h
  | succ fuel ih =>
    obtain ⟨ihS, ihSs, ihB⟩ := ih
    have hE := (genExpr_step fuel).1
    refine ⟨?_, ?_, ?_⟩
    · intro st s last st1 h
      cases s with
      | fnDecl name params retTy body =>
        simp only [genStmt] at h
        rw [Res.bind_eq_ok] at h
        obtain ⟨ptys, _, h⟩ := h
        rw [Res.bind_eq_ok] at h
        obtain ⟨rty, _, h⟩ := h
        rw [Res.bind_eq_ok] at h
        obtain ⟨st4, hparams, h⟩ := h
        rw [Res.bind_eq_ok] at h
        obtain ⟨st5, hbody, h⟩ := h
        cases h
        refine stepLow_trans (stepLow_addFunction st name ptys rty) ?_
        refine stepLow_trans (stepLow_appendBlock _ (addFunction st name ptys rty).1 ("entry")) ?_
        refine stepLow_trans (stepLow_pushPos _
          (appendBlockToFunc (addFunction st name ptys rty).2 (addFunction st name ptys rty).1 ("entry")).1) ?_
        refine stepLow_trans (stepLow_of_ntStep (genParams_nt params _ _ hparams)) ?_
        refine stepLow_trans (ihB _ _ _ _ hbody) ?_
        exact stepLow_trans (stepLow_popScope _) (stepLow_positionAt _ _)
      | ret oe =>
        cases oe with
        | some e =>
          simp only [genStmt] at h
          rw [Res.bind_eq_ok] at h
          obtain ⟨⟨v, st0⟩, h0, h⟩ := h
          cases h
          exact stepLow_trans (stepLow_of_exprStep (hE st e v st0 h0)) (stepLow_appendInstr _ _ _)
        | none =>
          simp only [genStmt] at h
          cases h
          exact stepLow_appendInstr _ _ _
      | exprStmt e =>
        simp only [genStmt] at h
        rw [Res.bind_eq_ok] at h
        obtain ⟨⟨v, st0⟩, h0, h⟩ := h
        cases h
        exact stepLow_of_exprStep (hE st e v st0 h0)
      | tailExpr e =>
        simp only [genStmt] at h
        rw [Res.bind_eq_ok] at h
        obtain ⟨⟨v, st0⟩, h0, h⟩ := h
        cases h
        exact stepLow_trans (stepLow_of_exprStep (hE st e v st0 h0)) (stepLow_appendInstr _ _ _)
      | letDecl name oty oval =>
        cases oval with
        | none => simp [genStmt] at h
        | some e =>
          simp only [genStmt] at h
          rw [Res.bind_eq_ok] at h
          obtain ⟨⟨v, st0⟩, h0, h⟩ := h
          rw [Res.bind_eq_ok] at h
          obtain ⟨u, _, h⟩ := h
          rw [Res.bind_eq_ok] at h
          obtain ⟨env1, _, h⟩ := h
          cases h
          refine stepLow_trans (stepLow_of_exprStep (hE st e v st0 h0)) ?_
          refine stepLow_of_ntStep (ntStep_trans ?_ (ntStep_setEnv _ env1))
          refine ntStep_trans ?_ (ntStep_appendInstr _ _ _ (Eq.refl _))
          unfold buildAlloca
          exact ntStep_trans (ntStep_setNextSlot st0 _) (ntStep_appendInstr _ _ _ (Eq.refl _))
      | varDecl name oty oval =>
        simp only [genStmt] at h
        rw [Res.bind_eq_ok] at h
        obtain ⟨⟨v, st0⟩, h0, h⟩ := h
        rw [Res.bind_eq_ok] at h
        obtain ⟨env1, _, h⟩ := h
        cases h
        have hinit : StepLow st st0 := by
          cases oval with
          | some e => exact stepLow_of_exprStep (hE st e v st0 h0)
          | none =>
            cases oty with
            | none => simp at h0
            | some t =>
              rw [Res.bind_eq_ok] at h0
              obtain ⟨v0, _, h0⟩ := h0
              cases h0
              exact stepLow_refl st
        refine stepLow_trans hinit ?_
        refine stepLow_of_ntStep (ntStep_trans ?_ (ntStep_setEnv _ env1))
        refine ntStep_trans ?_ (ntStep_appendInstr _ _ _ (Eq.refl _))
        unfold buildAlloca
        exact ntStep_trans (ntStep_setNextSlot st0 _) (ntStep_appendInstr _ _ _ (Eq.refl _))
      | assign name e =>
        simp only [genStmt] at h
        rw [Res.bind_eq_ok] at h
        obtain ⟨⟨v, st0⟩, h0, h⟩ := h
        rw [Res.bind_eq_ok] at h
        obtain ⟨vi, _, h⟩ := h
        split at h
        · exact absurd h (by simp)
        · split at h
          · exact absurd h (by simp)
          · cases h
            refine stepLow_trans (stepLow_of_exprStep (hE st e v st0 h0)) ?_
            exact stepLow_trans (stepLow_appendInstr _ _ _) (stepLow_appendInstr _ _ _)
      | ifStmt cond thenB elseB =>
        simp only [genStmt] at h
        split at h
        · exact absurd h (by simp)
        · rename_i blk hlk
          split at h
          · exact absurd h (by simp)
          · rename_i fidx hpf
            cases elseB with
            | none =>
              simp only at h
              rw [Res.bind_eq_ok] at h
              obtain ⟨⟨cv, st0⟩, h0, h⟩ := h
              rw [Res.bind_eq_ok] at h
              obtain ⟨u, _, h⟩ := h
              rw [Res.bind_eq_ok] at h
              obtain ⟨st3, h3, h⟩ := h
              rw [Res.bind_eq_ok] at h
              obtain ⟨st5, h5, h⟩ := h
              cases h
              have hlowThen : StepLow st st3 :=
                stepLow_trans (stepLow_appendBlock st fidx ("then"))
                  (stepLow_trans (stepLow_appendBlock _ fidx ("ifcont"))
                    (stepLow_trans (stepLow_of_exprStep (hE _ cond cv st0 h0))
                      (stepLow_trans (stepLow_appendInstr _ _ _)
                        (stepLow_trans (stepLow_positionAt _ _) (ihB _ _ _ _ h3)))))
              have hlow4 : StepLow st (if (termAt st3 st3.cur).isNone then
                  appendInstr st3 st3.cur (.br (appendBlockToFunc (appendBlockToFunc st fidx ("then")).2 fidx ("ifcont")).1) else st3) := by
                split
                · exact stepLow_trans hlowThen (stepLow_appendInstr _ _ _)
                · exact hlowThen
              have hmergeGe : st.nextBlock ≤ (appendBlockToFunc (appendBlockToFunc st fidx ("then")).2 fidx ("ifcont")).1 := by
                unfold appendBlockToFunc
                simp
              have hlow5 : StepLow st st5 := by
                split at h5
                · obtain ⟨hnb, _, _, hlk5, _⟩ := removeBlock_spec h5
                  refine ⟨hlow4.1.trans (Nat.le_of_eq hnb.symm), ?_⟩
                  intro bid b0 hbid hlkb
                  obtain ⟨t, hres⟩ := hlow4.2 bid b0 hbid hlkb
                  refine ⟨t, ?_⟩
                  rw [hlk5 bid ?_]
                  · exact hres
                  · intro heq
                    subst heq
                    exact absurd (Nat.lt_of_lt_of_le hbid hmergeGe) (Nat.lt_irrefl _)
                · cases h5
                  exact hlow4
              exact stepLow_trans hlow5 (stepLow_positionAt _ _)
            | some elseStmts =>
              simp only at h
              rw [Res.bind_eq_ok] at h
              obtain ⟨⟨cv, st0⟩, h0, h⟩ := h
              rw [Res.bind_eq_ok] at h
              obtain ⟨u, _, h⟩ := h
              rw [Res.bind_eq_ok] at h
              obtain ⟨st3, h3, h⟩ := h
              rw [Res.bind_eq_ok] at h
              obtain ⟨st6, h6, h⟩ := h
              rw [Res.bind_eq_ok] at h
              obtain ⟨st8, h8, h⟩ := h
              cases h
              have hbr : ∀ (b : Nat), StepLow st3 (if (termAt st3 st3.cur).isNone then
                  appendInstr st3 st3.cur (.br b) else st3) := by
                intro b
                split
                · exact stepLow_appendInstr _ _ _
                · exact stepLow_refl st3
              have hlowElse : StepLow st st6 :=
                stepLow_trans (stepLow_appendBlock st fidx ("then"))
                  (stepLow_trans (stepLow_appendBlock _ fidx ("else"))
                    (stepLow_trans (stepLow_appendBlock _ fidx ("ifcont"))
                      (stepLow_trans (stepLow_of_exprStep (hE _ cond cv st0 h0))
                        (stepLow_trans (stepLow_appendInstr _ _ _)
                          (stepLow_trans (stepLow_positionAt _ _)
                            (stepLow_trans (ihB _ _ _ _ h3)
                              (stepLow_trans (hbr _)
                                (stepLow_trans (stepLow_positionAt _ _) (ihB _ _ _ _ h6)))))))))
              have hlow7 : StepLow st (if (termAt st6 st6.cur).isNone then
                  appendInstr st6 st6.cur (.br (appendBlockToFunc (appendBlockToFunc (appendBlockToFunc st fidx ("then")).2 fidx ("else")).2 fidx ("ifcont")).1) else st6) := by
                split
                · exact stepLow_trans hlowElse (stepLow_appendInstr _ _ _)
                · exact hlowElse
              have hmergeGe : st.nextBlock ≤ (appendBlockToFunc (appendBlockToFunc (appendBlockToFunc st fidx ("then")).2 fidx ("else")).2 fidx ("ifcont")).1 := by
                unfold appendBlockToFunc
                simp
                omega
              have hlow8 : StepLow st st8 := by
                split at h8
                · obtain ⟨hnb, _, _, hlk8, _⟩ := removeBlock_spec h8
                  refine ⟨hlow7.1.trans (Nat.le_of_eq hnb.symm), ?_⟩
                  intro bid b0 hbid hlkb
                  obtain ⟨t, hres⟩ := hlow7.2 bid b0 hbid hlkb
                  refine ⟨t, ?_⟩
                  rw [hlk8 bid ?_]
                  · exact hres
                  · intro heq
                    subst heq
                    exact absurd (Nat.lt_of_lt_of_le hbid hmergeGe) (Nat.lt_irrefl _)
                · cases h8
                  exact hlow7
              exact stepLow_trans hlow8 (stepLow_positionAt _ _)
    · intro st ss last st1 h
      cases ss with
      | nil =>
        simp only [genStmts] at h
        cases h
        exact stepLow_refl st
      | cons s rest =>
        simp only [genStmts] at h
        rw [Res.bind_eq_ok] at h
        obtain ⟨st0, h0, h⟩ := h
        exact stepLow_trans (ihS _ _ _ _ h0) (ihSs _ _ _ _ h)
    · intro st ss last st1 h
      simp only [genBlock] at h
      rw [Res.bind_eq_ok] at h
      obtain ⟨st0, h0, h⟩ := h
      cases h
      refine stepLow_trans (stepLow_pushScope st) ?_
      exact stepLow_trans (ihSs _ _ _ _ h0) (stepLow_popScope _)

/-- Lookup transfer along an NTStep, keeping the fact that everything
appended is a non-terminator. -/
theorem ntStep_lookup {st st1 : St} (h : NTStep st st1) {bid : Nat} {blk : Block}
    (hlk : lookupBlock st bid = some blk) :
    ∃ t, lookupBlock st1 bid = some { blk with instrs := blk.instrs ++ t } ∧
      ∀ i ∈ t, i.isTerminator = false := by
  obtain ⟨p, hf, hp2⟩ := lookupBlock_eq_some_iff.mp hlk
  obtain ⟨q, hq, hq1, hq2⟩ := blocksExt_find? h.2.2 bid p hf
  obtain ⟨hlab, hpar, t, hins, hnel⟩ := hq2
  refine ⟨t, lookupBlock_eq_some_iff.mpr ⟨q, hq, ?_⟩, hnel⟩
  subst hp2
  obtain ⟨qid, ql, qp, qi⟩ := q
  simp only at hlab hpar hins
  simp [hlab, hpar, hins]

/-- A statement list consisting only of expression statements is an
NTStep: expression statements lower their expression and discard the
value, emitting no terminator and creating no block or function. -/
theorem genStmtsNT : ∀ (es : List Expr) (fuel : Nat) (st : St) (last : Bool) (st1 : St),
    genStmts fuel st (es.map Stmt.exprStmt) last = .ok st1 → NTStep st st1 := by
  intro es
  induction es with
  | nil =>
    intro fuel st last st1 h
    cases fuel with
    | zero => simp [genStmts] at h
    | succ n =>
      simp only [List.map_nil, genStmts] at h
      cases h
      exact ntStep_refl st
  | cons e rest ih =>
    intro fuel st last st1 h
    cases fuel with
    | zero => simp [genStmts] at h
    | succ n =>
      simp only [List.map_cons, genStmts] at h
      rw [Res.bind_eq_ok] at h
      obtain ⟨st0, h0, h⟩ := h
      have hrest := ih n st0 last st1 h
      cases n with
      | zero => simp [genStmt] at h0
      | succ m =>
        simp only [genStmt] at h0
        rw [Res.bind_eq_ok] at h0
        obtain ⟨⟨v, stv⟩, hv, h0⟩ := h0
        cases h0
        exact ntStep_trans (ntStep_of_exprStep ((genExpr_step m).1 st e v stv hv)) hrest

/-- Block version of the previous lemma. -/
theorem genBlockNT : ∀ (es : List Expr) (fuel : Nat) (st : St) (last : Bool) (st1 : St),
    genBlock fuel st (es.map Stmt.exprStmt) last = .ok st1 → NTStep st st1 := by
  intro es fuel st last st1 h
  cases fuel with
  | zero => simp [genBlock] at h
  | succ n =>
    simp only [genBlock] at h
    rw [Res.bind_eq_ok] at h
    obtain ⟨st0, h0, h⟩ := h
    cases h
    exact ntStep_trans (ntStep_pushScope st)
      (ntStep_trans (genStmtsNT es n (pushScope st) last st0 h0) (ntStep_popScope st0))

/-- C1 (amended): lowering a function declaration emits nothing after the
body, so for a body made of expression statements (no tail expression, no
return) the function's entry block ends with no terminator at all — in
particular no void return is synthesized. -/
theorem c1_fnDecl_never_synthesizes_return :
    ∀ (fuel : Nat) (st : St) (name : String) (params : List FunctionParameter) (retTy : Ty)
      (es : List Expr) (last : Bool) (st1 : St),
    lookupBlock st st.nextBlock = none →
    genStmt (fuel+1) st (.fnDecl name params retTy (es.map Stmt.exprStmt)) last = .ok st1 →
    ∃ blk, lookupBlock st1 st.nextBlock = some blk ∧
      blk.parentFn = some st.funcs.length ∧
      blk.instrs.all (fun i => !i.isTerminator) = true ∧
      termAt st1 st.nextBlock = none := by
  intro fuel st name params retTy es last st1 hfresh h
  simp only [genStmt] at h
  rw [Res.bind_eq_ok] at h
  obtain ⟨ptys, _, h⟩ := h
  rw [Res.bind_eq_ok] at h
  obtain ⟨rty, _, h⟩ := h
  rw [Res.bind_eq_ok] at h
  obtain ⟨st4, hparams, h⟩ := h
  rw [Res.bind_eq_ok] at h
  obtain ⟨st5, hbody, h⟩ := h
  cases h
  have hentry : lookupBlock
      (appendBlockToFunc (addFunction st name ptys rty).2 (addFunction st name ptys rty).1 ("entry")).2
      st.nextBlock =
      some { label := ("entry"), parentFn := some st.funcs.length, instrs := [] } := by
    rw [lookupBlock_appendBlock]
    have hA : lookupBlock (addFunction st name ptys rty).2 st.nextBlock = none := hfresh
    rw [hA]
    have hnb : (addFunction st name ptys rty).2.nextBlock = st.nextBlock := rfl
    rw [hnb]
    simp only [if_pos rfl, Option.none_or]
    rfl
  have hNT : NTStep
      (appendBlockToFunc (addFunction st name ptys rty).2 (addFunction st name ptys rty).1 ("entry")).2
      (positionAt (popScope st5) st.cur) :=
    ntStep_trans (ntStep_positionAt _ _)
      (ntStep_trans (ntStep_pushScope _)
        (ntStep_trans (genParams_nt params _ _ hparams)
          (ntStep_trans (genBlockNT es _ _ _ _ hbody)
            (ntStep_trans (ntStep_popScope st5) (ntStep_positionAt _ st.cur)))))
  obtain ⟨t, hlk1, hnt⟩ := ntStep_lookup hNT hentry
  refine ⟨_, hlk1, Eq.refl _, ?_, ?_⟩
  · simp only [List.nil_append]
    rw [List.all_eq_true]
    intro i hi
    simpa using hnt i hi
  · unfold termAt
    rw [hlk1]
    simp only [List.nil_append]
    cases htl : t.getLast? with
    | none => simp
    | some i =>
      have : i.isTerminator = false := hnt i (List.mem_of_mem_getLast? htl)
      simp [this]

/-- C2: when an `if` statement is lowered with `is_last_stmt = true` (it is
the last statement of the chain of tail positions rooted at the enclosing
function body), the merge block (`ifcont`) is unconditionally removed from
the enclosing function's block list. No condition on the branches is
checked: the branches are arbitrary here, including branches that fall
through into a branch instruction targeting the removed block. -/
theorem c2_merge_removed_in_tail_position :
    ∀ (fuel : Nat) (st : St) (cond : Expr) (thenB : List Stmt) (elseB : Option (List Stmt))
      (st1 : St) (blk : Block) (pidx : Nat),
    lookupBlock st st.cur = some blk →
    blk.parentFn = some pidx →
    (∀ b, st.nextBlock ≤ b → lookupBlock st b = none) →
    genStmt (fuel+1) st (.ifStmt cond thenB elseB) true = .ok st1 →
    ∀ f, st1.funcs[pidx]? = some f →
      (st.nextBlock + (if elseB.isSome then 2 else 1)) ∉ f.blockIds := by
  intro fuel st cond thenB elseB st1 blk pidx hlk hpf hfresh h f hf
  simp only [genStmt] at h
  rw [hlk] at h
  simp only at h
  rw [hpf] at h
  simp only at h
  cases elseB with
  | none =>
    simp only [Option.isSome_none, if_false] at hf ⊢
    rw [Res.bind_eq_ok] at h
    obtain ⟨⟨cv, st0⟩, h0, h⟩ := h
    rw [Res.bind_eq_ok] at h
    obtain ⟨u, _, h⟩ := h
    rw [Res.bind_eq_ok] at h
    obtain ⟨st3, h3, h⟩ := h
    rw [Res.bind_eq_ok] at h
    obtain ⟨st5, h5, h⟩ := h
    cases h
    simp only [if_pos] at h5
    have hmerge1 : (appendBlockToFunc (appendBlockToFunc st pidx ("then")).2 pidx ("ifcont")).1
        = st.nextBlock + 1 := rfl
    rw [hmerge1] at h5
    have hlkM0 : lookupBlock
        (appendBlockToFunc (appendBlockToFunc st pidx ("then")).2 pidx ("ifcont")).2
        (st.nextBlock + 1) =
        some { label := ("ifcont"), parentFn := some pidx, instrs := [] } := by
      rw [lookupBlock_appendBlock, lookupBlock_appendBlock]
      rw [hfresh (st.nextBlock + 1) (Nat.le_succ _)]
      have h1 : ¬(st.nextBlock + 1 = st.nextBlock) := by omega
      have h2 : (appendBlockToFunc st pidx ("then")).2.nextBlock = st.nextBlock + 1 := rfl
      rw [h2]
      simp [h1]
    have hlowMid : StepLow
        (appendBlockToFunc (appendBlockToFunc st pidx ("then")).2 pidx ("ifcont")).2
        (if (termAt st3 st3.cur).isNone then
          appendInstr st3 st3.cur (.br (st.nextBlock + 1))
          else st3) := by
      have hbase : StepLow
          (appendBlockToFunc (appendBlockToFunc st pidx ("then")).2 pidx ("ifcont")).2 st3 :=
        stepLow_trans (stepLow_of_exprStep ((genExpr_step fuel).1 _ cond cv st0 h0))
          (stepLow_trans (stepLow_appendInstr _ _ _)
            (stepLow_trans (stepLow_positionAt _ _) ((genStmt_low fuel).2.2 _ _ _ _ h3)))
      split
      · exact stepLow_trans hbase (stepLow_appendInstr _ _ _)
      · exact hbase
    have hmergeLt : st.nextBlock + 1 <
        (appendBlockToFunc (appendBlockToFunc st pidx ("then")).2 pidx ("ifcont")).2.nextBlock := by
      have h2 : (appendBlockToFunc (appendBlockToFunc st pidx ("then")).2 pidx
          ("ifcont")).2.nextBlock = st.nextBlock + 2 := rfl
      omega
    obtain ⟨t, hlkM⟩ := hlowMid.2 (st.nextBlock + 1) _ hmergeLt hlkM0
    obtain ⟨hnb5, _, _, hlkne, blkM, fidx2, hlkM2, hpfM, hfuncs⟩ := removeBlock_spec h5
    rw [hlkM] at hlkM2
    have hpfM2 : blkM.parentFn = some pidx := by
      cases hlkM2
      exact Eq.refl _
    have hfidx : fidx2 = pidx := by
      rw [hpfM2] at hpfM
      simpa using hpfM.symm
    rw [hfidx] at hfuncs
    have hf5 : st5.funcs[pidx]? = some f := hf
    rw [hfuncs, List.getElem?_mapIdx] at hf5
    cases h4f : (if (termAt st3 st3.cur).isNone then
        appendInstr st3 st3.cur (.br (st.nextBlock + 1)) else st3).funcs[pidx]? with
    | none => rw [h4f] at hf5; simp at hf5
    | some f0 =>
      rw [h4f] at hf5
      simp only [Option.map_some', Option.some.injEq, beq_self_eq_true, if_true] at hf5
      intro hmem
      rw [← hf5] at hmem
      simp only [List.mem_filter] at hmem
      exact absurd hmem.2 (by simp)
  | some elseStmts =>
    simp only [Option.isSome_some, if_true] at hf ⊢
    rw [Res.bind_eq_ok] at h
    obtain ⟨⟨cv, st0⟩, h0, h⟩ := h
    rw [Res.bind_eq_ok] at h
    obtain ⟨u, _, h⟩ := h
    rw [Res.bind_eq_ok] at h
    obtain ⟨st3, h3, h⟩ := h
    rw [Res.bind_eq_ok] at h
    obtain ⟨st6, h6, h⟩ := h
    rw [Res.bind_eq_ok] at h
    obtain ⟨st8, h8, h⟩ := h
    cases h
    simp only [if_pos] at h8
    have hmerge1 : (appendBlockToFunc (appendBlockToFunc (appendBlockToFunc st pidx ("then")).2
        pidx ("else")).2 pidx ("ifcont")).1 = st.nextBlock + 2 := rfl
    rw [hmerge1] at h8
    have hlkM0 : lookupBlock
        (appendBlockToFunc (appendBlockToFunc (appendBlockToFunc st pidx ("then")).2
          pidx ("else")).2 pidx ("ifcont")).2
        (st.nextBlock + 2) =
        some { label := ("ifcont"), parentFn := some pidx, instrs := [] } := by
      rw [lookupBlock_appendBlock, lookupBlock_appendBlock, lookupBlock_appendBlock]
      rw [hfresh (st.nextBlock + 2) (by omega)]
      have h1 : ¬(st.nextBlock + 2 = st.nextBlock) := by omega
      have h2 : (appendBlockToFunc st pidx ("then")).2.nextBlock = st.nextBlock + 1 := rfl
      have h3e : (appendBlockToFunc (appendBlockToFunc st pidx ("then")).2 pidx
          ("else")).2.nextBlock = st.nextBlock + 2 := rfl
      rw [h2, h3e]
      have h4 : ¬(st.nextBlock + 2 = st.nextBlock + 1) := by omega
      simp [h1, h4]
    have hlowMid : StepLow
        (appendBlockToFunc (appendBlockToFunc (appendBlockToFunc st pidx ("then")).2
          pidx ("else")).2 pidx ("ifcont")).2
        (if (termAt st6 st6.cur).isNone then
          appendInstr st6 st6.cur (.br (st.nextBlock + 2))
          else st6) := by
      have hbr3 : StepLow st3 (if (termAt st3 st3.cur).isNone then
          appendInstr st3 st3.cur
            (.br (appendBlockToFunc (appendBlockToFunc (appendBlockToFunc st pidx ("then")).2
              pidx ("else")).2 pidx ("ifcont")).1)
          else st3) := by
        split
        · exact stepLow_appendInstr _ _ _
        · exact stepLow_refl st3
      have hbase : StepLow
          (appendBlockToFunc (appendBlockToFunc (appendBlockToFunc st pidx ("then")).2
            pidx ("else")).2 pidx ("ifcont")).2 st6 :=
        stepLow_trans (stepLow_of_exprStep ((genExpr_step fuel).1 _ cond cv st0 h0))
          (stepLow_trans (stepLow_appendInstr _ _ _)
            (stepLow_trans (stepLow_positionAt _ _)
              (stepLow_trans ((genStmt_low fuel).2.2 _ _ _ _ h3)
                (stepLow_trans hbr3
                  (stepLow_trans (stepLow_positionAt _ _) ((genStmt_low fuel).2.2 _ _ _ _ h6))))))
      split
      · exact stepLow_trans hbase (stepLow_appendInstr _ _ _)
      · exact hbase
    have hmergeLt : st.nextBlock + 2 <
        (appendBlockToFunc (appendBlockToFunc (appendBlockToFunc st pidx ("then")).2
          pidx ("else")).2 pidx ("ifcont")).2.nextBlock := by
      have h2 : (appendBlockToFunc (appendBlockToFunc (appendBlockToFunc st pidx ("then")).2
          pidx ("else")).2 pidx ("ifcont")).2.nextBlock = st.nextBlock + 3 := rfl
      omega
    obtain ⟨t, hlkM⟩ := hlowMid.2 (st.nextBlock + 2) _ hmergeLt hlkM0
    obtain ⟨hnb8, _, _, hlkne, blkM, fidx2, hlkM2, hpfM, hfuncs⟩ := removeBlock_spec h8
    rw [hlkM] at hlkM2
    have hpfM2 : blkM.parentFn = some pidx := by
      cases hlkM2
      exact Eq.refl _
    have hfidx : fidx2 = pidx := by
      rw [hpfM2] at hpfM
      simpa using hpfM.symm
    rw [hfidx] at hfuncs
    have hf8 : st8.funcs[pidx]? = some f := hf
    rw [hfuncs, List.getElem?_mapIdx] at hf8
    cases h4f : (if (termAt st6 st6.cur).isNone then
        appendInstr st6 st6.cur (.br (st.nextBlock + 2)) else st6).funcs[pidx]? with
    | none => rw [h4f] at hf8; simp at hf8
    | some f0 =>
      rw [h4f] at hf8
      simp only [Option.map_some', Option.some.injEq, beq_self_eq_true, if_true] at hf8
      intro hmem
      rw [← hf8] at hmem
      simp only [List.mem_filter] at hmem
      exact absurd hmem.2 (by simp)

/-- C3 (amended): lowering a tail-expression statement (ast::Stmt::Expr)
always emits the lowered value as a `build_return` at the current
insertion point, whatever block that is — the arm inspects neither the
`is_last_stmt` flag nor the nesting depth, relying on a parser invariant
that is not actually checked (and that nested blocks do not satisfy). -/
theorem c3_tail_expr_always_emits_return :
    ∀ (fuel : Nat) (st : St) (e : Expr) (v : Val) (stv : St) (isLast : Bool),
    genExpr fuel st e = .ok (v, stv) →
    (lookupBlock st st.cur).isSome →
    genStmt (fuel+1) st (.tailExpr e) isLast = .ok (appendInstr stv stv.cur (.ret (some v))) ∧
    stv.cur = st.cur ∧
    termAt (appendInstr stv stv.cur (.ret (some v))) st.cur = some (.ret (some v)) := by
  intro fuel st e v stv isLast h hcur
  have hstep := (genExpr_step fuel).1 st e v stv h
  refine ⟨?_, hstep.cur_eq, ?_⟩
  · simp only [genStmt, Res.bind, h]
  · cases hlk : lookupBlock st st.cur with
    | none => rw [hlk] at hcur; simp at hcur
    | some blk =>
      obtain ⟨t, hlk1, _⟩ := ntStep_lookup (ntStep_of_exprStep hstep) hlk
      unfold termAt
      rw [← hstep.cur_eq, lookupBlock_appendInstr, hstep.cur_eq, hlk1]
      simp [List.getLast?_concat, Instr.isTerminator]

/-- C4 (amended): only `let` declarations check a declared type against
the initializer's inferred type (TypeMismatch on disagreement, binding on
agreement given a fresh name); a `var` declaration with an initializer
ignores its declared type entirely — the lowering result does not depend
on the annotation, and the variable is bound at the initializer's type. -/
theorem c4_let_checked_var_annotation_ignored :
    ∀ (fuel : Nat) (st : St) (name : String) (t : Ty) (lt : LTy) (e : Expr) (v : Val)
      (stv : St) (isLast : Bool),
    genExpr fuel st e = .ok (v, stv) →
    mapAstTy t = .ok lt →
    ((v.ty ≠ lt →
        genStmt (fuel+1) st (.letDecl name (some t) (some e)) isLast = .err .letTypeMismatch) ∧
     (∀ top rest, v.ty = lt → stv.env = top :: rest → scopeLookup top name = none →
        genStmt (fuel+1) st (.letDecl name (some t) (some e)) isLast =
          .ok { appendInstr (buildAlloca stv v.ty name).2 (buildAlloca stv v.ty name).2.cur
                  (.store (buildAlloca stv v.ty name).1 v) with
                env := ((name, ⟨stv.nextSlot, v.ty, false⟩) :: top) :: rest } ∧
        resolveVar (((name, ⟨stv.nextSlot, v.ty, false⟩) :: top) :: rest) name =
          .ok ⟨stv.nextSlot, v.ty, false⟩) ∧
     genStmt (fuel+1) st (.varDecl name (some t) (some e)) isLast =
       genStmt (fuel+1) st (.varDecl name none (some e)) isLast) := by
  intro fuel st name t lt e v stv isLast h hmap
  refine ⟨?_, ?_, ?_⟩
  · intro hne
    simp only [genStmt, Res.bind, h, checkLetTy, hmap]
    simp [hne]
  · intro top rest heq henv hlknone
    have hdecl : declareVar
        ((appendInstr (buildAlloca stv v.ty name).2 (buildAlloca stv v.ty name).2.cur
          (.store (buildAlloca stv v.ty name).1 v)).env) name ⟨stv.nextSlot, v.ty, false⟩ =
        .ok (((name, ⟨stv.nextSlot, v.ty, false⟩) :: top) :: rest) := by
      rw [show (appendInstr (buildAlloca stv v.ty name).2 (buildAlloca stv v.ty name).2.cur
          (.store (buildAlloca stv v.ty name).1 v)).env = top :: rest from henv]
      simp [declareVar, scopeInsert, hlknone]
    constructor
    · simp only [genStmt, Res.bind, h, checkLetTy, hmap]
      have hcond : (if v.ty ≠ lt then (Res.err CErr.letTypeMismatch : Res Unit) else Res.ok ())
          = Res.ok () := by
        simp [heq]
      rw [hcond]
      simp only [Res.bind]
      rw [show ((buildAlloca stv v.ty name).1 : Nat) = stv.nextSlot from rfl] at hdecl ⊢
      rw [hdecl]
    · simp [resolveVar, scopeLookup]
  · exact Eq.refl _

/-- C5 (amended): assignment lowering first lowers the assigned value
expression; only then is the target resolved. Given a successfully lowered
value: an unresolvable target yields that resolution error (UnboundName),
an immutable target yields ImmutableAssignment, a type disagreement with
the slot's stored type yields TypeMismatch, and otherwise a load (the
type-check probe) and the store of the new value are emitted. A failure
while lowering the value surfaces instead of any of these — the target is
never consulted first. -/
theorem c5_assign_value_before_target :
    ∀ (fuel : Nat) (st : St) (name : String) (e : Expr) (v : Val) (stv : St) (isLast : Bool),
    genExpr fuel st e = .ok (v, stv) →
    ((∀ er, resolveVar stv.env name = .err er →
        genStmt (fuel+1) st (.assign name e) isLast = .err er) ∧
     (∀ vi, resolveVar stv.env name = .ok vi → vi.isMutable = false →
        genStmt (fuel+1) st (.assign name e) isLast = .err (.immutableAssign name)) ∧
     (∀ vi, resolveVar stv.env name = .ok vi → vi.isMutable = true → v.ty ≠ vi.ty →
        genStmt (fuel+1) st (.assign name e) isLast = .err (.assignTypeMismatch name)) ∧
     (∀ vi, resolveVar stv.env name = .ok vi → vi.isMutable = true → v.ty = vi.ty →
        genStmt (fuel+1) st (.assign name e) isLast =
          .ok (appendInstr (appendInstr stv stv.cur (.load vi.slot vi.ty ("loadtmp"))) stv.cur
            (.store vi.slot v)))) := by
  intro fuel st name e v stv isLast h
  refine ⟨?_, ?_, ?_, ?_⟩
  · intro er hres
    simp only [genStmt, Res.bind, h, hres]
  · intro vi hres hmut
    simp only [genStmt, Res.bind, h, hres]
    simp [hmut]
  · intro vi hres hmut hne
    simp only [genStmt, Res.bind, h, hres]
    simp [hmut, hne]
  · intro vi hres hmut heq
    simp only [genStmt, Res.bind, h, hres]
    simp [hmut, heq]
    rfl

/-- Resolution returns the binding of the innermost scope containing the
name. -/
theorem resolveVar_innermost : ∀ (env : Env) (name : String) (i : Nat) (s : Scope)
    (vi0 : VarInfo),
    env[i]? = some s → scopeLookup s name = some vi0 →
    (∀ j s0, j < i → env[j]? = some s0 → scopeLookup s0 name = none) →
    resolveVar env name = .ok vi0 := by
  intro env name
  induction env with
  | nil =>
    intro i s vi0 hi
    simp at hi
  | cons top rest ih =>
    intro i s vi0 hi hlk hj
    cases i with
    | zero =>
      simp only [List.getElem?_cons_zero, Option.some.injEq] at hi
      subst hi
      simp [resolveVar, hlk]
    | succ i0 =>
      have h0 : scopeLookup top name = none :=
        hj 0 top (Nat.succ_pos i0) (by simp)
      simp only [List.getElem?_cons_succ] at hi
      simp only [resolveVar, h0]
      exact ih i0 s vi0 hi hlk (fun j s0 hjl hjs =>
        hj (j+1) s0 (Nat.succ_lt_succ hjl) (by simpa using hjs))

/-- Resolution fails with UnboundName exactly when no scope binds the
name. -/
theorem resolveVar_err_iff : ∀ (env : Env) (name : String),
    resolveVar env name = .err (.unboundName name) ↔
      ∀ s ∈ env, scopeLookup s name = none := by
  intro env name
  induction env with
  | nil => simp [resolveVar]
  | cons top rest ih =>
    cases hlk : scopeLookup top name with
    | some vi => simp [resolveVar, hlk]
    | none => simp [resolveVar, hlk, ih]

/-- C6: Env::declare_var fails with the duplicate-binding error exactly
when the name is already bound in the top (innermost) scope — a binding in
an outer scope never blocks declaration (shadowing); Env::resolve_var
searches innermost-to-outermost, returns the innermost binding, and fails
with UnboundName exactly when no scope binds the name. The scope stack is
represented head-innermost; the nonemptiness hypothesis reflects that
`scopes.last_mut().unwrap()` requires a scope to exist. -/
theorem c6_declare_resolve_scoping :
    ∀ (env : Env) (name : String) (vi : VarInfo),
    env ≠ [] →
    ((declareVar env name vi = .err (.duplicateBinding name) ↔
        (scopeLookup (env.headD []) name).isSome) ∧
     (scopeLookup (env.headD []) name = none →
        declareVar env name vi = .ok (((name, vi) :: env.headD []) :: env.tail)) ∧
     (∀ (i : Nat) (s : Scope) (vi0 : VarInfo), env[i]? = some s →
        scopeLookup s name = some vi0 →
        (∀ (j : Nat) (s0 : Scope), j < i → env[j]? = some s0 → scopeLookup s0 name = none) →
        resolveVar env name = .ok vi0) ∧
     (resolveVar env name = .err (.unboundName name) ↔
        ∀ s ∈ env, scopeLookup s name = none)) := by
  intro env name vi hne
  obtain ⟨top, rest, rfl⟩ : ∃ top rest, env = top :: rest := by
    cases env with
    | nil => exact absurd rfl hne
    | cons a b => exact ⟨a, b, rfl⟩
  refine ⟨?_, ?_, ?_, ?_⟩
  · cases hlk : scopeLookup top name with
    | some old => simp [declareVar, scopeInsert, hlk]
    | none => simp [declareVar, scopeInsert, hlk]
  · intro hlk
    simp only [List.headD_cons] at hlk
    simp [declareVar, scopeInsert, hlk]
  · exact fun i s vi0 hi hlk hj => resolveVar_innermost (top :: rest) name i s vi0 hi hlk hj
  · exact resolveVar_err_iff (top :: rest) name

/-- C7: precedence and associativity of the implemented operators: the
source `2 + 3 * 4` parses as `2 + (3 * 4)`, `-2 * 3` parses as
`(-2) * 3`, and each implemented binary operator (`+ - * /`, the only
ones the chumsky grammar builds) folds left: `1 op 2 op 3` parses as
`(1 op 2) op 3`. -/
theorem c7_precedence_and_left_associativity :
    parseSrc ("2 + 3 * 4") =
      .okP ⟨[.tailExpr (.binOp (.intLit 2) .add (.binOp (.intLit 3) .mul (.intLit 4)))]⟩ ∧
    parseSrc ("-2 * 3") =
      .okP ⟨[.tailExpr (.binOp (.unaryOp .neg (.intLit 2)) .mul (.intLit 3))]⟩ ∧
    parseSrc ("1 + 2 + 3") =
      .okP ⟨[.tailExpr (.binOp (.binOp (.intLit 1) .add (.intLit 2)) .add (.intLit 3))]⟩ ∧
    parseSrc ("1 - 2 - 3") =
      .okP ⟨[.tailExpr (.binOp (.binOp (.intLit 1) .sub (.intLit 2)) .sub (.intLit 3))]⟩ ∧
    parseSrc ("1 * 2 * 3") =
      .okP ⟨[.tailExpr (.binOp (.binOp (.intLit 1) .mul (.intLit 2)) .mul (.intLit 3))]⟩ ∧
    parseSrc ("1 / 2 / 3") =
      .okP ⟨[.tailExpr (.binOp (.binOp (.intLit 1) .div (.intLit 2)) .div (.intLit 3))]⟩ :=
  ⟨rfl, rfl, rfl, rfl, rfl, rfl⟩

/-- C8 counterexample: the claim fails — `var`, `if`, `else` and `return`
have no dedicated token in token.rs and lex as identifier tokens. -/
theorem c8_counterexample : c8KeywordClaimHolds = false := rfl

/-- C8 (amended): only `fn` and `let` have dedicated keyword tokens
(token.rs declares only Token::FunctionDeclaration and
Token::LetDeclaration); the spellings `var`, `if`, `else` and `return`
match the general identifier pattern and lex as identifier tokens. -/
theorem c8_only_fn_and_let_are_keywords :
    lexText ("fn") = [Token.functionDeclaration] ∧
    lexText ("let") = [Token.letDeclaration] ∧
    lexText ("var") = [Token.identifier ("var")] ∧
    lexText ("if") = [Token.identifier ("if")] ∧
    lexText ("else") = [Token.identifier ("else")] ∧
    lexText ("return") = [Token.identifier ("return")] :=
  ⟨rfl, rfl, rfl, rfl, rfl, rfl⟩

/-- C9: parsing an integer literal beyond the i64 range panics (the
`value.parse().unwrap()` inside the literal `select!` arm), instead of
producing a collected parse error. -/
theorem c9_overflowing_literal_panics :
    parseSrc c9Source = .crashP ∧
    i64Max < natOfDigits c9Source ∧
    parseSrc c9Source ≠ .errsP :=
  ⟨rfl, by decide,
   fun hc => ParseOut.noConfusion ((rfl : parseSrc c9Source = ParseOut.crashP).symm.trans hc)⟩

/-- C10: lowering a call to a function registered with void return type
panics: `try_as_basic_value().left().unwrap()` assumes every callee
returns a basic value, but a void call has none. Void-returning functions
are registered with no return type exactly when declared `-> void` (see
the fnDecl lowering and its witness below). -/
theorem c10_void_call_panics :
    ∀ (fuel : Nat) (st : St) (name : String) (args : List Expr) (vals : List Val)
      (st1 : St) (f : Func),
    findFn st.funcs name = some f →
    f.retTy = none →
    genExprs fuel st args = .ok (vals, st1) →
    genExpr (fuel+1) st (.fnCall name args) = .crash := by
  intro fuel st name args vals st1 f hfind hret hargs
  simp only [genExpr, hfind, Res.bind, hargs, hret]

/-- C10 witness: lowering the declaration `fn f() -> void {}` yields
stVoidF, and lowering the call `f()` from there panics. -/
theorem c10_witness :
    genStmt 9 initSt (.fnDecl ("f") [] .void []) false = .ok stVoidF ∧
    genExpr 9 stVoidF (.fnCall ("f") []) = .crash :=
  ⟨rfl, c10_void_call_panics 8 stVoidF ("f") [] [] stVoidF
    { name := ("f"), paramTys := [], retTy := none, blockIds := [1] } rfl rfl rfl⟩

/-- C1 counterexample: lowering `fn f() -> void { 1; }` succeeds and emits
no return instruction anywhere in `f` — no void return is synthesized, the
entry block is left unterminated. -/
theorem c1_counterexample : c1VoidReturnSynthesized = false := rfl

/-- C1 witness: instantiating the amended theorem on
`fn f() -> void { 1; }` — the lowered function's entry block (block 1) has
no terminator. -/
theorem c1_witness : termAt stVoidF2 1 = none := by
  obtain ⟨blk, _, _, _, hterm⟩ := c1_fnDecl_never_synthesizes_return 8 initSt ("f") [] .void
    [Expr.intLit 1] false stVoidF2 rfl rfl
  exact hterm

/-- C2 witness: lowering `if true { 1; }` as the last statement removes
merge block 2 from `main` even though the `then` branch falls through
(block 1 ends in `br 2`, a branch to the removed block). -/
theorem c2_witness :
    genStmt 9 initSt (.ifStmt (.boolLit true) [.exprStmt (.intLit 1)] none) true = .ok c2St ∧
    lookupBlock c2St 1 = some { label := ("then"), parentFn := some 0, instrs := [.br 2] } ∧
    (2 : Nat) ∉ ({ name := ("main"), paramTys := [], retTy := some LTy.i32,
                   blockIds := [0, 1] } : Func).blockIds := by
  have hfr : ∀ b, initSt.nextBlock ≤ b → lookupBlock initSt b = none := by
    intro b hb
    have hb0 : (0 == b) = false := by
      have : b ≠ 0 := Nat.one_le_iff_ne_zero.mp hb
      simpa using (Ne.symm this)
    simp [lookupBlock, initSt, List.find?, hb0]
  have happ := c2_merge_removed_in_tail_position 8 initSt (.boolLit true)
    [.exprStmt (.intLit 1)] none c2St { label := ("entry"), parentFn := some 0, instrs := [] } 0
    rfl rfl hfr rfl
    { name := ("main"), paramTys := [], retTy := some LTy.i32, blockIds := [0, 1] } rfl
  exact ⟨rfl, rfl, happ⟩

/-- C3 counterexample: the tail expression inside the `then` branch IS
emitted as a function return — the nested `then` block ends in `ret`. -/
theorem c3_counterexample : c3NestedTailReturn = true := rfl

/-- C3 witness: instantiating the amended theorem at the initial state —
the tail expression's value is returned at the current block regardless of
position. -/
theorem c3_witness :
    genStmt 9 initSt (.tailExpr (.intLit 1)) false =
      .ok (appendInstr initSt initSt.cur (.ret (some ⟨.i32⟩))) ∧
    termAt (appendInstr initSt initSt.cur (.ret (some ⟨.i32⟩))) 0 = some (.ret (some ⟨.i32⟩)) := by
  have h := c3_tail_expr_always_emits_return 8 initSt (.intLit 1) ⟨.i32⟩ initSt false rfl rfl
  exact ⟨h.1, h.2.2⟩

/-- C4 counterexample: `var x: i64 = 1;` lowers without any error, binding
`x` at the initializer's type i32 — the i64 annotation is ignored, no
TypeMismatch is raised. -/
theorem c4_counterexample :
    c4VarMismatchRejected = false ∧ c4VarBinding = .ok ⟨0, .i32, true⟩ := ⟨rfl, rfl⟩

/-- C4 witness: the amended theorem at concrete inputs — `let x: i64 = 1`
is a TypeMismatch, `let x: i32 = 1` binds x immutably at i32, and a var
declaration's lowering is literally independent of its annotation. -/
theorem c4_witness :
    genStmt 9 initSt (.letDecl ("x") (some .i64) (some (.intLit 1))) false
      = .err .letTypeMismatch ∧
    resolveVar [[(("x"), ⟨0, .i32, false⟩)]] ("x") = .ok ⟨0, .i32, false⟩ ∧
    genStmt 9 initSt (.varDecl ("x") (some .i64) (some (.intLit 1))) false =
      genStmt 9 initSt (.varDecl ("x") none (some (.intLit 1))) false := by
  have hA := c4_let_checked_var_annotation_ignored 8 initSt ("x") .i64 .i64 (.intLit 1)
    ⟨.i32⟩ initSt false rfl rfl
  have hB := c4_let_checked_var_annotation_ignored 8 initSt ("x") .i32 .i32 (.intLit 1)
    ⟨.i32⟩ initSt false rfl rfl
  exact ⟨hA.1 (by decide), (hB.2.1 [] [] rfl rfl rfl).2, hA.2.2⟩

/-- C5 witness: the amended theorem at concrete inputs — unbound target
surfaces the resolution error, a `let` target is ImmutableAssignment, a
type disagreement is TypeMismatch, and an agreeing `var` target stores. -/
theorem c5_witness :
    genStmt 9 c5StW (.assign ("zz") (.intLit 2)) false = .err (.unboundName ("zz")) ∧
    genStmt 9 c5StW (.assign ("a") (.intLit 2)) false = .err (.immutableAssign ("a")) ∧
    genStmt 9 c5StW (.assign ("c") (.intLit 2)) false = .err (.assignTypeMismatch ("c")) ∧
    genStmt 9 c5StW (.assign ("b") (.intLit 2)) false =
      .ok (appendInstr (appendInstr c5StW c5StW.cur (.load 1 .i32 ("loadtmp"))) c5StW.cur
        (.store 1 ⟨.i32⟩)) := by
  refine ⟨?_, ?_, ?_, ?_⟩
  · exact (c5_assign_value_before_target 8 c5StW ("zz") (.intLit 2) ⟨.i32⟩ c5StW false rfl).1
      (.unboundName ("zz")) rfl
  · exact (c5_assign_value_before_target 8 c5StW ("a") (.intLit 2) ⟨.i32⟩ c5StW false rfl).2.1
      ⟨0, .i32, false⟩ rfl rfl
  · exact (c5_assign_value_before_target 8 c5StW ("c") (.intLit 2) ⟨.i32⟩ c5StW false rfl).2.2.1
      ⟨2, .i64, true⟩ rfl rfl (by decide)
  · exact (c5_assign_value_before_target 8 c5StW ("b") (.intLit 2) ⟨.i32⟩ c5StW false rfl).2.2.2
      ⟨1, .i32, true⟩ rfl rfl rfl

/-- C6 witness: resolution returns the innermost `x`; declaring `y` in the
top scope succeeds although `y` is bound in the outer scope (shadowing);
re-declaring `x` in the top scope is a duplicate-binding error; resolving
an unbound name fails with UnboundName. -/
theorem c6_witness :
    resolveVar c6Env ("x") = .ok ⟨0, .i32, false⟩ ∧
    declareVar c6Env ("y") ⟨3, .i32, false⟩ =
      .ok (((("y"), ⟨3, .i32, false⟩) :: [(("x"), ⟨0, .i32, false⟩)]) ::
        [[(("x"), ⟨1, .i64, true⟩), (("y"), ⟨2, .i32, true⟩)]]) ∧
    declareVar c6Env ("x") ⟨3, .i32, false⟩ = .err (.duplicateBinding ("x")) ∧
    resolveVar c6Env ("zz") = .err (.unboundName ("zz")) := by
  have hx := c6_declare_resolve_scoping c6Env ("x") ⟨3, .i32, false⟩ (by simp [c6Env])
  have hy := c6_declare_resolve_scoping c6Env ("y") ⟨3, .i32, false⟩ (by simp [c6Env])
  have hz := c6_declare_resolve_scoping c6Env ("zz") ⟨3, .i32, false⟩ (by simp [c6Env])
  refine ⟨?_, ?_, ?_, ?_⟩
  · exact hx.2.2.1 0 [(("x"), ⟨0, .i32, false⟩)] ⟨0, .i32, false⟩ rfl rfl
      (fun j s0 hj _ => absurd hj (Nat.not_lt_zero j))
  · exact hy.2.1 rfl
  · exact hx.1.mpr rfl
  · exact hz.2.2.2.mpr (by decide)

/-- C5 counterexample: although the target `x` is declared with `let`, the
lowering fails with UnboundName for `y` — the assigned value is lowered
before the target is resolved, so ImmutableAssignment (which the claim
says is raised whenever the target is a `let` binding, target resolved
first) is never reached. -/
theorem c5_counterexample :
    compileUnit 9 c5Prog = .err (.unboundName ("y")) ∧
    compileUnit 9 c5Prog ≠ .err (.immutableAssign ("x")) := by
  refine ⟨rfl, ?_⟩
  intro hc
  have : CErr.unboundName ("y") = CErr.immutableAssign ("x") := by
    have h1 : compileUnit 9 c5Prog = .err (.unboundName ("y")) := rfl
    have := h1.symm.trans hc
    injection this
  exact CErr.noConfusion this
